import Mathlib

/-!
# Verification of the document text-extraction pipeline (`PdfParserService`)

Shallow embedding of `src/services/pdf-parser-service.ts`, the document
text-extraction and fallback pipeline of the RFP-simulation web application,
together with theorems settling the frozen claims about it.

Modelling conventions:

* JavaScript strings are modelled as Lean `String`s; `s.length` is modelled by
  the number of characters (equal to the number of UTF-16 code units for all
  text appearing in this development, which stays within the BMP).
* Byte buffers (`ArrayBuffer` / `Uint8Array`) are modelled as `List Nat`, each
  entry a byte value.  Out-of-range indexing (`uint8Array[i]` yielding
  `undefined`) is modelled with `List.get?`.
* External libraries (`pdf-parse`, `pdf-lib`'s `PDFDocument.load`, `JSZip`) are
  modelled as oracle parameters: an `Except String _` value describes whether
  the library call threw (with its message) or returned a result.  The code
  under verification never inspects those results other than as recorded here.
* `async` functions contain no internal concurrency (every await is sequential),
  so they are modelled as pure functions; exceptions are modelled with
  `Except String`.
* JavaScript regular expressions used by the source are implemented as
  dedicated scanners with JavaScript semantics (leftmost match, greedy/lazy
  quantifier backtracking, `g`-flag iteration resuming at the end of the
  previous match).  Each scanner documents the regex literal it implements.
-/

namespace RfpSim

/-! ## JavaScript string primitives -/

/-- JavaScript `\s` (whitespace class): space, tab, line feeds, vertical
whitespace and the Unicode space separators recognised by ECMA-262. -/
def jsIsWs (c : Char) : Bool :=
  c = ' ' || c = '\t' || c = '\n' || c = '\r' ||
  c = Char.ofNat 0x0B || c = Char.ofNat 0x0C || c = Char.ofNat 0xA0 ||
  c = Char.ofNat 0x1680 ||
  (Char.ofNat 0x2000 ≤ c && c ≤ Char.ofNat 0x200A) ||
  c = Char.ofNat 0x2028 || c = Char.ofNat 0x2029 ||
  c = Char.ofNat 0x202F || c = Char.ofNat 0x205F ||
  c = Char.ofNat 0x3000 || c = Char.ofNat 0xFEFF

/-- ECMA-262 line terminators (the characters `.` does not match without the
`s` flag): LF, CR, LS, PS.  Note every line terminator is also `\s`. -/
def isLineTerm (c : Char) : Bool :=
  c = '\n' || c = '\r' || c = Char.ofNat 0x2028 || c = Char.ofNat 0x2029

/-- ASCII digit, regex `\d`. -/
def isDigitA (c : Char) : Bool := '0' ≤ c && c ≤ '9'

/-- Regex class `[A-Z]`. -/
def isUpperA (c : Char) : Bool := 'A' ≤ c && c ≤ 'Z'

/-- Regex `\w`: `[A-Za-z0-9_]`. -/
def isWordChar (c : Char) : Bool :=
  ('a' ≤ c && c ≤ 'z') || ('A' ≤ c && c ≤ 'Z') || isDigitA c || c = '_'

/-- Regex class `[가-힣]` (precomposed Hangul syllables U+AC00–U+D7A3). -/
def isHangulSyl (c : Char) : Bool :=
  Char.ofNat 0xAC00 ≤ c && c ≤ Char.ofNat 0xD7A3

/-- `String.prototype.trim()` on a character list: drop `\s`-class characters
from both ends. -/
def jsTrimL (l : List Char) : List Char :=
  ((l.dropWhile jsIsWs).reverse.dropWhile jsIsWs).reverse

/-- `String.prototype.trim()`. -/
def jsTrimStr (s : String) : String := String.mk (jsTrimL s.data)

/-- `String.prototype.toLowerCase()`, modelled character-wise with Lean's
(ASCII) `Char.toLower`; every string this development lowers is ASCII/Hangul,
where the two agree. -/
def jsToLower (s : String) : String := String.mk (s.data.map Char.toLower)

/-- `a.endsWith(b)`. -/
def jsEndsWith (s suffix : String) : Bool := suffix.data.isSuffixOf s.data

/-- Substring containment scan (structurally recursive, kernel-computable). -/
def containsSub (sub : List Char) : List Char → Bool
  | [] => sub.isEmpty
  | c :: r => sub.isPrefixOf (c :: r) || containsSub sub r

/-- `a.includes(b)` (substring containment). -/
def jsIncludes (s sub : String) : Bool := containsSub sub.data s.data

/-- `s.split(sep)` for a one-character string separator (used with `'\n'`):
keeps empty pieces, so `"a\n".split('\n') = ["a", ""]` and
`"".split('\n') = [""]`. -/
def splitCharL (sep : Char) : List Char → List (List Char)
  | [] => [[]]
  | c :: r =>
    match splitCharL sep r with
    | [] => [[c]]
    | h :: t => if c = sep then [] :: h :: t else (c :: h) :: t

/-- `s.split('\n')` (and similar) at the `String` level. -/
def jsSplitChar (sep : Char) (s : String) : List String :=
  (splitCharL sep s.data).map String.mk

/-- `s.split(/\s+/)`: split at maximal whitespace runs; a leading or trailing
run contributes an empty piece (JS semantics), and `"".split(/\s+/) = [""]`.
Fuel-driven (one unit per character consumed); the wrapper supplies enough. -/
def splitWsF : Nat → List Char → List (List Char)
  | 0, s => [s]
  | _ + 1, [] => [[]]
  | fuel + 1, c :: r =>
    if jsIsWs c then
      [] :: splitWsF fuel (r.dropWhile jsIsWs)
    else
      match splitWsF fuel r with
      | [] => [[c]]
      | h :: t => (c :: h) :: t

/-- `s.split(/\s+/)` on a character list. -/
def splitWsL (l : List Char) : List (List Char) := splitWsF (l.length + 1) l

/-- `s.split(/\s+/)` at the `String` level; `.length` of the JS result is the
length of this list. -/
def jsSplitWs (s : String) : List String := (splitWsL s.data).map String.mk

/-- `s.replace(/\s+/g, ' ')`: collapse each maximal whitespace run to a single
space.  Fuel-driven (one unit per run or character). -/
def collapseWsF : Nat → List Char → List Char
  | 0, s => s
  | _ + 1, [] => []
  | fuel + 1, c :: r =>
    if jsIsWs c then ' ' :: collapseWsF fuel (r.dropWhile jsIsWs)
    else c :: collapseWsF fuel r

/-- `s.replace(/\s+/g, ' ')` on a character list. -/
def collapseWsL (l : List Char) : List Char := collapseWsF (l.length + 1) l

/-- `Array.prototype.join(sep)`: empty array gives `""`. -/
def jsJoinL (sep : List Char) : List (List Char) → List Char
  | [] => []
  | [p] => p
  | p :: r => p ++ sep ++ jsJoinL sep r

/-- `Array.prototype.join(sep)` on strings. -/
def jsJoin (sep : String) (l : List String) : String :=
  String.mk (jsJoinL sep.data (l.map String.data))

/-- `s.replaceAll`-style global replacement of a fixed substring (the source
uses `s.replace(/pat/g, rep)` with literal patterns); fuel-driven scanner. -/
def replaceSubF (pat rep : List Char) : Nat → List Char → List Char
  | 0, s => s
  | _ + 1, [] => []
  | fuel + 1, c :: r =>
    if pat ≠ [] ∧ pat.isPrefixOf (c :: r) then
      rep ++ replaceSubF pat rep fuel ((c :: r).drop pat.length)
    else
      c :: replaceSubF pat rep fuel r

/-- `s.replace(/pat/g, rep)` for a literal pattern `pat`. -/
def replaceSub (pat rep s : String) : String :=
  String.mk (replaceSubF pat.data rep.data (s.data.length + 1) s.data)

/-- `s.substring(a, b)` (JavaScript semantics: clamp both indices to
`[0, length]` and swap them when out of order). -/
def jsSubstring (s : String) (a b : Nat) : String :=
  let len := s.data.length
  let a' := min a len
  let b' := min b len
  let lo := min a' b'
  let hi := max a' b'
  String.mk ((s.data.drop lo).take (hi - lo))

/-- `s.substring(0, n)` (truncation). -/
def jsTake (s : String) (n : Nat) : String := String.mk (s.data.take n)

/-! ## UTF-8 validation and lossy decoding (`TextDecoder('utf-8', ...)`) -/

/-- UTF-8 continuation byte `80..BF`. -/
def isCont (b : Nat) : Bool := 0x80 ≤ b && b ≤ 0xBF

/-- Strict (RFC 3629 / WHATWG) UTF-8 well-formedness of a byte list: what
`new TextDecoder('utf-8', { fatal: true })` accepts without throwing. -/
def isValidUtf8 : List Nat → Bool
  | [] => true
  | b :: r =>
    if b ≤ 0x7F then isValidUtf8 r
    else if 0xC2 ≤ b && b ≤ 0xDF then
      match r with
      | b1 :: r' => isCont b1 && isValidUtf8 r'
      | [] => false
    else if b = 0xE0 then
      match r with
      | b1 :: b2 :: r' => (0xA0 ≤ b1 && b1 ≤ 0xBF) && isCont b2 && isValidUtf8 r'
      | _ => false
    else if (0xE1 ≤ b && b ≤ 0xEC) || b = 0xEE || b = 0xEF then
      match r with
      | b1 :: b2 :: r' => isCont b1 && isCont b2 && isValidUtf8 r'
      | _ => false
    else if b = 0xED then
      match r with
      | b1 :: b2 :: r' => (0x80 ≤ b1 && b1 ≤ 0x9F) && isCont b2 && isValidUtf8 r'
      | _ => false
    else if b = 0xF0 then
      match r with
      | b1 :: b2 :: b3 :: r' =>
        (0x90 ≤ b1 && b1 ≤ 0xBF) && isCont b2 && isCont b3 && isValidUtf8 r'
      | _ => false
    else if 0xF1 ≤ b && b ≤ 0xF3 then
      match r with
      | b1 :: b2 :: b3 :: r' => isCont b1 && isCont b2 && isCont b3 && isValidUtf8 r'
      | _ => false
    else if b = 0xF4 then
      match r with
      | b1 :: b2 :: b3 :: r' =>
        (0x80 ≤ b1 && b1 ≤ 0x8F) && isCont b2 && isCont b3 && isValidUtf8 r'
      | _ => false
    else false

/-- U+FFFD replacement character. -/
def replChar : Char := Char.ofNat 0xFFFD

/-- Lossy UTF-8 decoding, `new TextDecoder('utf-8', { fatal: false })`:
well-formed sequences decode to their scalar value, each maximal invalid
subpart becomes one U+FFFD (WHATWG behaviour).  Fuel-driven (each step consumes
at least one byte); the wrapper supplies enough. -/
def utf8DecodeF : Nat → List Nat → List Char
  | 0, _ => []
  | _ + 1, [] => []
  | fuel + 1, b :: r =>
    if b ≤ 0x7F then Char.ofNat b :: utf8DecodeF fuel r
    else if 0xC2 ≤ b && b ≤ 0xDF then
      match r with
      | b1 :: r1 =>
        if isCont b1 then
          Char.ofNat ((b - 0xC0) * 0x40 + (b1 - 0x80)) :: utf8DecodeF fuel r1
        else replChar :: utf8DecodeF fuel (b1 :: r1)
      | [] => [replChar]
    else if 0xE0 ≤ b && b ≤ 0xEF then
      let lo1 := if b = 0xE0 then 0xA0 else 0x80
      let hi1 := if b = 0xED then 0x9F else 0xBF
      match r with
      | b1 :: r1 =>
        if lo1 ≤ b1 && b1 ≤ hi1 then
          match r1 with
          | b2 :: r2 =>
            if isCont b2 then
              Char.ofNat ((b - 0xE0) * 0x1000 + (b1 - 0x80) * 0x40 + (b2 - 0x80)) ::
                utf8DecodeF fuel r2
            else replChar :: utf8DecodeF fuel (b2 :: r2)
          | [] => [replChar]
        else replChar :: utf8DecodeF fuel (b1 :: r1)
      | [] => [replChar]
    else if 0xF0 ≤ b && b ≤ 0xF4 then
      let lo1 := if b = 0xF0 then 0x90 else 0x80
      let hi1 := if b = 0xF4 then 0x8F else 0xBF
      match r with
      | b1 :: r1 =>
        if lo1 ≤ b1 && b1 ≤ hi1 then
          match r1 with
          | b2 :: r2 =>
            if isCont b2 then
              match r2 with
              | b3 :: r3 =>
                if isCont b3 then
                  Char.ofNat ((b - 0xF0) * 0x40000 + (b1 - 0x80) * 0x1000 +
                    (b2 - 0x80) * 0x40 + (b3 - 0x80)) :: utf8DecodeF fuel r3
                else replChar :: utf8DecodeF fuel (b3 :: r3)
              | [] => [replChar]
            else replChar :: utf8DecodeF fuel (b2 :: r2)
          | [] => [replChar]
        else replChar :: utf8DecodeF fuel (b1 :: r1)
      | [] => [replChar]
    else replChar :: utf8DecodeF fuel r

/-- Lossy UTF-8 decoding of a whole byte list. -/
def utf8DecodeLossy (bytes : List Nat) : List Char :=
  utf8DecodeF (bytes.length + 1) bytes

/-- Lossy decode to a `String`. -/
def utf8DecodeLossyStr (bytes : List Nat) : String := String.mk (utf8DecodeLossy bytes)

/-! ## `validateFileType` (the Binary Sniffer) -/

inductive FileType where
  | pdf | docx | txt | unknown
deriving DecidableEq, Repr

structure FileClassification where
  isValid : Bool
  fileType : FileType
  mimeType : String
deriving DecidableEq, Repr

/-- `PdfParserService.validateFileType(buffer, fileName)`:

```
// PDF 시그니처: %PDF
if (uint8Array[0] === 0x25 && ... uint8Array[3] === 0x46) return pdf
// DOCX 시그니처: PK (ZIP 파일)
if (uint8Array[0] === 0x50 && uint8Array[1] === 0x4B && fileName.endsWith('.docx')) return docx
// TXT: 확장자 + strict UTF-8 디코딩
if (fileName.toLowerCase().endsWith('.txt')) { try strict decode → txt }
return unknown
```
-/
def validateFileType (buffer : List Nat) (fileName : String) : FileClassification :=
  if buffer[0]? = some 0x25 ∧ buffer[1]? = some 0x50 ∧
      buffer[2]? = some 0x44 ∧ buffer[3]? = some 0x46 then
    { isValid := true, fileType := .pdf, mimeType := "application/pdf" }
  else if buffer[0]? = some 0x50 ∧ buffer[1]? = some 0x4B ∧
      jsEndsWith fileName ".docx" then
    { isValid := true, fileType := .docx,
      mimeType := "application/vnd.openxmlformats-officedocument.wordprocessingml.document" }
  else if jsEndsWith (jsToLower fileName) ".txt" ∧ isValidUtf8 buffer then
    { isValid := true, fileType := .txt, mimeType := "text/plain" }
  else
    { isValid := false, fileType := .unknown, mimeType := "application/octet-stream" }

/-! ## Regex scanning infrastructure -/

/-- First index at which `pat` occurs as a contiguous substring (`pat` is
non-empty at every use site). -/
def findSub (pat : List Char) : List Char → Option Nat
  | [] => none
  | c :: rest =>
    if pat.isPrefixOf (c :: rest) then some 0
    else (findSub pat rest).map (· + 1)

/-- Generic `g`-flag scan: at each position try `matchAt` (which receives the
character preceding the position — needed for `\b` — and the remaining input);
on a match, record its result and resume right after the consumed text,
otherwise advance one character.  Every matcher used here consumes at least
one character, so `fuel = length + 1` always suffices. -/
def gScan {α : Type} (matchAt : Option Char → List Char → Option (List Char × α × List Char)) :
    Nat → Option Char → List Char → List α
  | 0, _, _ => []
  | _ + 1, _, [] => []
  | fuel + 1, prev, c :: rest =>
    match matchAt prev (c :: rest) with
    | some (consumed, res, r) =>
      res :: gScan matchAt fuel (consumed.getLast? <|> prev) r
    | none => gScan matchAt fuel (some c) rest

/-- Run a `g`-flag scan over a string (as `String.prototype.match(re)` with a
global regex: the array of full-match strings, or of whatever the matcher
extracts for `matchAll`). -/
def gMatches {α : Type} (matchAt : Option Char → List Char → Option (List Char × α × List Char))
    (s : String) : List α :=
  gScan matchAt (s.data.length + 1) none s.data

/-- `s.split(re)` driven by a position matcher (leftmost match semantics):
pieces between successive matches, keeping empty pieces, as
`String.prototype.split` does.  All separators used here consume at least one
character. -/
def splitScanF (matchAt : List Char → Option (List Char × List Char)) :
    Nat → List Char → List Char → List (List Char)
  | 0, acc, s => [acc.reverse ++ s]
  | _ + 1, acc, [] => [acc.reverse]
  | fuel + 1, acc, c :: r =>
    match matchAt (c :: r) with
    | some (_, rest) => acc.reverse :: splitScanF matchAt fuel [] rest
    | none => splitScanF matchAt fuel (c :: acc) r

/-- `s.split(re)` at the `String` level. -/
def jsSplitRe (matchAt : List Char → Option (List Char × List Char)) (s : String) :
    List String :=
  (splitScanF matchAt (s.data.length + 1) [] s.data).map String.mk

/-! ## PDF fallback text extraction (`extractWithFallbackMethod` and helpers) -/

/-- One attempt of `/BT\s+.*?ET/gs` at the current position: literal `BT`, at
least one whitespace character (greedy run), then the lazy gap up to the first
following `ET` (the `s` flag lets the gap span line terminators; giving back
whitespace from the `\s+` run can never expose an earlier `ET` because `E` is
not whitespace). -/
def matchAtBT : List Char → Option (List Char × List Char × List Char)
  | 'B' :: 'T' :: r =>
    let wsRun := r.takeWhile jsIsWs
    if wsRun.isEmpty then none
    else
      let afterWs := r.drop wsRun.length
      match findSub ['E', 'T'] afterWs with
      | some idx =>
        let consumed := 'B' :: 'T' :: (r.take (wsRun.length + idx)) ++ ['E', 'T']
        some (consumed, consumed, afterWs.drop (idx + 2))
      | none => none
  | _ => none

/-- One attempt of `/\(([^)]+)\)\s*Tj/g`: a parenthesised run (forced to end at
the first `)` since `[^)]` cannot cross it), optional whitespace, then `Tj`
(which must sit exactly at the end of the whitespace run, `T` not being
whitespace).  The full match is returned: `String.match` with a global regex
yields full matches only. -/
def matchAtTj : List Char → Option (List Char × List Char × List Char)
  | '(' :: r =>
    let content := r.takeWhile (· ≠ ')')
    if content.isEmpty then none
    else
      match r.drop content.length with
      | ')' :: r2 =>
        let wsRun := r2.takeWhile jsIsWs
        match r2.drop wsRun.length with
        | 'T' :: 'j' :: r3 =>
          let consumed := '(' :: content ++ [')'] ++ wsRun ++ ['T', 'j']
          some (consumed, consumed, r3)
        | _ => none
      | _ => none
  | _ => none

/-- One attempt of `/\[([^\]]+)\]\s*TJ/g`, analogous to `matchAtTj`. -/
def matchAtTJArr : List Char → Option (List Char × List Char × List Char)
  | '[' :: r =>
    let content := r.takeWhile (· ≠ ']')
    if content.isEmpty then none
    else
      match r.drop content.length with
      | ']' :: r2 =>
        let wsRun := r2.takeWhile jsIsWs
        match r2.drop wsRun.length with
        | 'T' :: 'J' :: r3 =>
          let consumed := '[' :: content ++ [']'] ++ wsRun ++ ['T', 'J']
          some (consumed, consumed, r3)
        | _ => none
      | _ => none
  | _ => none

/-- One attempt of `/\/F\d+\s+\d+\s+Tf\s+([^(]+)/g`.  The digit/whitespace
alternation is forced (their character classes are disjoint from what follows
them), except at the final `\s+([^(]+)`: when the character after the maximal
whitespace run is `(` — or the input ends there — the greedy `\s+` gives back
one whitespace character, which then satisfies `[^(]+`; that requires the run
to have length at least 2. -/
def matchAtTf : List Char → Option (List Char × List Char × List Char)
  | '/' :: 'F' :: r =>
    let d1 := r.takeWhile isDigitA
    if d1.isEmpty then none else
    let r1 := r.drop d1.length
    let w1 := r1.takeWhile jsIsWs
    if w1.isEmpty then none else
    let r2 := r1.drop w1.length
    let d2 := r2.takeWhile isDigitA
    if d2.isEmpty then none else
    let r3 := r2.drop d2.length
    let w2 := r3.takeWhile jsIsWs
    if w2.isEmpty then none else
    match r3.drop w2.length with
    | 'T' :: 'f' :: r5 =>
      let w3 := r5.takeWhile jsIsWs
      if w3.isEmpty then none else
      let afterW3 := r5.drop w3.length
      let stem := '/' :: 'F' :: d1 ++ w1 ++ d2 ++ w2 ++ ['T', 'f']
      match afterW3 with
      | c :: _ =>
        if c ≠ '(' then
          let content := afterW3.takeWhile (· ≠ '(')
          let consumed := stem ++ w3 ++ content
          some (consumed, consumed, afterW3.drop content.length)
        else if 2 ≤ w3.length then
          let consumed := stem ++ w3
          some (consumed, consumed, afterW3)
        else none
      | [] =>
        if 2 ≤ w3.length then
          let consumed := stem ++ w3
          some (consumed, consumed, [])
        else none
    | _ => none
  | _ => none

/-- The four `textPatterns` of `extractWithFallbackMethod`, applied in source
order, each contributing its full-match strings
(`extractedTexts.push(...matches)`). -/
def pdfTextMatches (s : String) : List String :=
  let run := fun m => (gMatches (fun _ l => m l) s).map String.mk
  run matchAtBT ++ run matchAtTj ++ run matchAtTJArr ++ run matchAtTf

/-- Is one of the operator tokens `BT|ET|Tj|TJ|Tf|Td|TD` at this position? -/
def pdfOpAt (l : List Char) : Bool :=
  ['B', 'T'].isPrefixOf l || ['E', 'T'].isPrefixOf l || ['T', 'j'].isPrefixOf l ||
  ['T', 'J'].isPrefixOf l || ['T', 'f'].isPrefixOf l || ['T', 'd'].isPrefixOf l ||
  ['T', 'D'].isPrefixOf l

/-- `raw.replace(/BT|ET|Tj|TJ|Tf|Td|TD/g, '')`: every alternative has length
two, so each match removes two characters. -/
def removePdfOpsF : Nat → List Char → List Char
  | 0, s => s
  | _ + 1, [] => []
  | fuel + 1, c :: r =>
    if pdfOpAt (c :: r) then removePdfOpsF fuel ((c :: r).drop 2)
    else c :: removePdfOpsF fuel r

/-- The positions where `$` holds in `m`-mode: end of input or immediately
before a line terminator.  Returns the largest `k` within the leading
whitespace run (greedy `\s*`) at which `$` holds. -/
def wsRunToLineEnd (s : List Char) : Option Nat :=
  let run := s.takeWhile jsIsWs
  (List.range (run.length + 1)).reverse.findSome? fun k =>
    match s.drop k with
    | [] => some k
    | c :: _ => if isLineTerm c then some k else none

/-- One attempt of `/^\d+(\.\d+)?\s*$/m` at a line-start position: an integer
with an optional greedy fraction part, then the longest whitespace run after
which `$` holds.  If `$` fails after the fraction was taken, the optional group
backtracks to being skipped, in which case `\s*` restarts at the `.` — which is
not whitespace, so that retry can only succeed if `$` holds right there
(it never does, `.` being no line terminator; the retry is kept for
faithfulness).  Returns the consumed prefix. -/
def numLineMatch (s : List Char) : Option (List Char) :=
  let ds := s.takeWhile isDigitA
  if ds.isEmpty then none else
  let r := s.drop ds.length
  let withFrac :=
    match r with
    | '.' :: r2 =>
      let fs := r2.takeWhile isDigitA
      if fs.isEmpty then none else some ('.' :: fs, r2.drop fs.length)
    | _ => none
  match withFrac with
  | some (frac, r') =>
    match wsRunToLineEnd r' with
    | some k => some (ds ++ frac ++ r'.take k)
    | none =>
      match wsRunToLineEnd r with
      | some k => some (ds ++ r.take k)
      | none => none
  | none =>
    match wsRunToLineEnd r with
    | some k => some (ds ++ r.take k)
    | none => none

/-- `s.replace(/^\d+(\.\d+)?\s*$/gm, '')`: remove number-only lines.  `^` in
`m`-mode holds at the start of input and after any line terminator. -/
def removeNumLinesF : Nat → Bool → List Char → List Char
  | 0, _, s => s
  | _ + 1, _, [] => []
  | fuel + 1, atLineStart, c :: r =>
    if atLineStart then
      match numLineMatch (c :: r) with
      | some consumed => removeNumLinesF fuel false ((c :: r).drop consumed.length)
      | none => c :: removeNumLinesF fuel (isLineTerm c) r
    else c :: removeNumLinesF fuel (isLineTerm c) r

/-- `cleanPdfText(rawText)`: strip PDF operator tokens, parentheses, brackets
and number-only lines, collapse whitespace, remove characters outside
`[\w\s가-힣.,!?()-]`, and trim. -/
def cleanPdfText (rawText : String) : String :=
  let s1 := removePdfOpsF (rawText.data.length + 1) rawText.data
  let s2 := s1.filter fun c => ¬(c = '(' || c = ')')
  let s3 := s2.filter fun c => ¬(c = '[' || c = ']')
  let s4 := removeNumLinesF (s3.length + 1) true s3
  let s5 := collapseWsL s4
  let s6 := s5.filter fun c =>
    isWordChar c || jsIsWs c || isHangulSyl c ||
    c = '.' || c = ',' || c = '!' || c = '?' || c = '(' || c = ')' || c = '-'
  String.mk (jsTrimL s6)

/-- ASCII case-insensitive character comparison (for the `i` flag). -/
def ciEq (a b : Char) : Bool := a.toLower = b.toLower

/-- Separator `/\f/g` (form feed). -/
def matchAtFormFeed : List Char → Option (List Char × List Char)
  | c :: r => if c = Char.ofNat 0x0C then some ([c], r) else none
  | [] => none

/-- Separator `/페이지\s*\d+/gi` (`i` is irrelevant to Hangul and digits). -/
def matchAtKoreanPage : List Char → Option (List Char × List Char)
  | '페' :: '이' :: '지' :: r =>
    let w := r.takeWhile jsIsWs
    let r1 := r.drop w.length
    let ds := r1.takeWhile isDigitA
    if ds.isEmpty then none
    else some ('페' :: '이' :: '지' :: w ++ ds, r1.drop ds.length)
  | _ => none

/-- Separator `/Page\s*\d+/gi`: case-insensitive literal `Page`, optional
whitespace, digits. -/
def matchAtEnglishPage : List Char → Option (List Char × List Char)
  | c0 :: c1 :: c2 :: c3 :: r =>
    if ciEq c0 'p' && ciEq c1 'a' && ciEq c2 'g' && ciEq c3 'e' then
      let w := r.takeWhile jsIsWs
      let r1 := r.drop w.length
      let ds := r1.takeWhile isDigitA
      if ds.isEmpty then none
      else some (c0 :: c1 :: c2 :: c3 :: w ++ ds, r1.drop ds.length)
    else none
  | _ => none

/-- Separator `/-\s*\d+\s*-/g` (page-number pattern; the quantifier chain is
forced since whitespace, digits and `-` are pairwise disjoint). -/
def matchAtDashNum : List Char → Option (List Char × List Char)
  | '-' :: r =>
    let w1 := r.takeWhile jsIsWs
    let r1 := r.drop w1.length
    let ds := r1.takeWhile isDigitA
    if ds.isEmpty then none
    else
      let r2 := r1.drop ds.length
      let w2 := r2.takeWhile jsIsWs
      match r2.drop w2.length with
      | '-' :: r3 => some ('-' :: w1 ++ ds ++ w2 ++ ['-'], r3)
      | _ => none
  | _ => none

/-- `estimatePageBreaks(text)`: try each page-break pattern in order; a split
is kept (and the loop exited) only if, after discarding pieces whose trimmed
length is ≤ 50, it yields more pieces than before. -/
def estimatePageBreaks (text : String) : List String :=
  let splitters := [matchAtFormFeed, matchAtKoreanPage, matchAtEnglishPage, matchAtDashNum]
  let step := fun (st : List String × Bool) sp =>
    if st.2 then st
    else
      let newPages := st.1.flatMap fun p =>
        (jsSplitRe sp p).filter fun piece => 50 < (jsTrimStr piece).data.length
      if st.1.length < newPages.length then (newPages, true) else st
  (splitters.foldl step ([text], false)).1

/-! ## The PDF extraction ladder -/

/-- `extraction_method` values of the PDF path: `'pdf-parse' | 'pdf-lib' |
'fallback'` (the declared result type of `extractTextFromPdf`). -/
inductive PdfMethod where
  | pdfParse | pdfLib | fallback
deriving DecidableEq, Repr

structure PdfPage where
  page_number : Nat
  content : String
  word_count : Nat
deriving DecidableEq, Repr

structure PdfMetadata where
  title : Option String
  author : Option String
  subject : Option String
  creator : Option String
  creation_date : Option String
  modification_date : Option String
  page_count : Nat
  file_size : Nat
deriving DecidableEq, Repr

structure PdfExtractionResult where
  text : String
  pages : List PdfPage
  metadata : PdfMetadata
  extraction_method : PdfMethod
deriving DecidableEq, Repr

structure FallbackExtraction where
  pages : List String
  method : PdfMethod
deriving DecidableEq, Repr

/-- `extractWithFallbackMethod(pdfBuffer)`: decode the buffer permissively,
collect the text-operator pattern matches, clean them, keep those longer than
5 characters, join with newlines and attempt heuristic page splitting.

The source's `catch` arm (binary scan / filename placeholder) is unreachable:
the `try` body is a non-fatal `TextDecoder` decode followed by total
regex-match and string operations, none of which can throw (that arm also
references an identifier `fileName` that is not in scope in this method).  The
function therefore always returns through the `try` arm, and its `method` tag
is `'fallback'` on that arm. -/
def extractWithFallbackMethod (pdfBuffer : List Nat) : FallbackExtraction :=
  let pdfString := utf8DecodeLossyStr pdfBuffer
  let extractedTexts := pdfTextMatches pdfString
  let cleanTexts := (extractedTexts.map cleanPdfText).filter fun t => 5 < t.data.length
  let combinedText := jsJoin "\n" cleanTexts
  let estimatedPages := estimatePageBreaks combinedText
  { pages := if 0 < estimatedPages.length then estimatedPages else [combinedText],
    method := .fallback }

/-- `x || undefined` for an optional string-valued property: the empty string
is falsy and becomes `undefined` too. -/
def orUndef (o : Option String) : Option String :=
  match o with
  | some t => if t = "" then none else some t
  | none => none

/-- The `info` dictionary a successful `pdfParse` call exposes. -/
structure PdfInfoDict where
  Title : Option String
  Author : Option String
  Subject : Option String
  Creator : Option String
  CreationDate : Option String
  ModDate : Option String
deriving DecidableEq, Repr

/-- Result of a successful `pdfParse(buffer)` library call (oracle). -/
structure PdfParseData where
  text : String
  numpages : Nat
  info : Option PdfInfoDict
deriving DecidableEq, Repr

/-- Result of a successful `PDFDocument.load(buffer)` call (oracle): page count
and the info-dictionary accessors, dates already rendered by
`toISOString()`. -/
structure PdfLibDoc where
  pageCount : Nat
  title : Option String
  author : Option String
  subject : Option String
  creator : Option String
  creationDateIso : Option String
  modificationDateIso : Option String
deriving DecidableEq, Repr

/-- The per-page proportional slicing loop of the primary (`pdf-parse`) path:
`textPerPage = Math.ceil(text.length / numpages)` (modelled as exact ceiling
division, which agrees with `Math.ceil` of the IEEE quotient at the magnitudes
a text length can take), then one `substring` per declared page, keeping only
pages whose trimmed content is non-empty.  When `numpages = 0` the `for` loop
body never executes (`i < 0` fails immediately), so no page is produced — in
JS the division by zero merely yields `Infinity`/`NaN`, which the dead loop
never consumes. -/
def slicePages (text : String) (numpages : Nat) : List PdfPage :=
  if numpages = 0 then []
  else
    let len := text.data.length
    let textPerPage := (len + numpages - 1) / numpages
    (List.range numpages).filterMap fun i =>
      let start := i * textPerPage
      let stop := min ((i + 1) * textPerPage) len
      let pageContent := jsTrimStr (jsSubstring text start stop)
      if 0 < pageContent.data.length then
        some { page_number := i + 1, content := pageContent,
               word_count := (jsSplitWs pageContent).length }
      else none

/-- Metadata assembled on the primary path (`pdfData.info?.X || undefined`). -/
def metaFromParse (d : PdfParseData) (fileSize : Nat) : PdfMetadata :=
  { title := orUndef (d.info.bind (·.Title)),
    author := orUndef (d.info.bind (·.Author)),
    subject := orUndef (d.info.bind (·.Subject)),
    creator := orUndef (d.info.bind (·.Creator)),
    creation_date := orUndef (d.info.bind (·.CreationDate)),
    modification_date := orUndef (d.info.bind (·.ModDate)),
    page_count := d.numpages,
    file_size := fileSize }

/-- Metadata assembled by `extractWithPdfLib` from the loaded document
(`pdfDoc.getTitle() || undefined` and friends). -/
def metaFromDoc (doc : PdfLibDoc) (fileSize : Nat) : PdfMetadata :=
  { title := orUndef doc.title,
    author := orUndef doc.author,
    subject := orUndef doc.subject,
    creator := orUndef doc.creator,
    creation_date := orUndef doc.creationDateIso,
    modification_date := orUndef doc.modificationDateIso,
    page_count := doc.pageCount,
    file_size := fileSize }

/-- `extractionResult.pages.map((content, index) => ({page_number: index+1, ...}))`. -/
def pagesFromContents : Nat → List String → List PdfPage
  | _, [] => []
  | i, c :: r =>
    { page_number := i + 1, content := c, word_count := (jsSplitWs c).length }
      :: pagesFromContents (i + 1) r

/-- `extractWithPdfLib(pdfBuffer, fileName)` (대안 파싱): load the document via
pdf-lib solely to read the metadata, recover the text via
`extractWithFallbackMethod`, and report that method tag; a load failure is
wrapped as `PDF 파싱 완전 실패: ...` by the local catch.  `fileName` is used
only in logging. -/
def extractWithPdfLib (pdfLibLoad : Except String PdfLibDoc) (pdfBuffer : List Nat)
    (fileName : String) : Except String PdfExtractionResult :=
  match pdfLibLoad with
  | .error msg => .error ("PDF 파싱 완전 실패: " ++ msg)
  | .ok doc =>
    let metadata := metaFromDoc doc pdfBuffer.length
    let extractionResult := extractWithFallbackMethod pdfBuffer
    let pages := pagesFromContents 0 extractionResult.pages
    let allText := jsJoin "\n\n" (pages.map (·.content))
    .ok { text := allText, pages := pages, metadata := metadata,
          extraction_method := extractionResult.method }

/-- `extractTextFromPdf(pdfBuffer, fileName)`: primary `pdf-parse` attempt
(oracle `pdfParse`); if that throws, the inner catch executes
`return this.extractWithPdfLib(...)` *without awaiting it* — the `try` frame
is exited as soon as the promise is returned, so a later rejection of that
promise bypasses the outer catch and surfaces with `extractWithPdfLib`'s own
`PDF 파싱 완전 실패: ...` message (the outer catch, which would wrap a
synchronous throw as `PDF 파싱 오류: ...`, is unreachable: nothing in the outer
`try` throws synchronously).  On this path `fileName` only feeds log lines. -/
def extractTextFromPdf (pdfParse : Except String PdfParseData)
    (pdfLibLoad : Except String PdfLibDoc) (pdfBuffer : List Nat)
    (fileName : String) : Except String PdfExtractionResult :=
  match pdfParse with
  | .ok pdfData =>
    .ok { text := pdfData.text,
          pages := slicePages pdfData.text pdfData.numpages,
          metadata := metaFromParse pdfData pdfBuffer.length,
          extraction_method := .pdfParse }
  | .error _ => extractWithPdfLib pdfLibLoad pdfBuffer fileName

/-! ## DOCX extraction (`extractTextFromDocx`, `extractDocxFallback`) -/

/-- `s.replace(/<[^>]+>/g, '')`: remove tag-like runs `<...>` with a non-empty
body free of `>`. -/
def stripTagsF : Nat → List Char → List Char
  | 0, s => s
  | _ + 1, [] => []
  | fuel + 1, c :: r =>
    if c = '<' then
      let body := r.takeWhile (· ≠ '>')
      if body.isEmpty then c :: stripTagsF fuel r
      else
        match r.drop body.length with
        | '>' :: r2 => stripTagsF fuel r2
        | _ => c :: stripTagsF fuel r
    else c :: stripTagsF fuel r

/-- `s.replace(/<[^>]+>/g, '')` at the `String` level. -/
def stripTags (s : String) : String := String.mk (stripTagsF (s.data.length + 1) s.data)

/-- One attempt of `/<w:t[^>]*>([^<]+)<\/w:t>/` (with `plus = true`) or of
`/<w:t[^>]*>([^<]*)<\/w:t>/` (with `plus = false`): literal `<w:t`, attributes
up to the first `>`, text content up to the first `<` (non-empty when `plus`),
then the closing `</w:t>`.  Yields the full match together with the content
capture. -/
def matchAtWt (plus : Bool) :
    List Char → Option (List Char × (List Char × List Char) × List Char)
  | '<' :: 'w' :: ':' :: 't' :: r =>
    let attrs := r.takeWhile (· ≠ '>')
    match r.drop attrs.length with
    | '>' :: r2 =>
      let content := r2.takeWhile (· ≠ '<')
      if plus ∧ content.isEmpty then none
      else
        match r2.drop content.length with
        | '<' :: '/' :: 'w' :: ':' :: 't' :: '>' :: r3 =>
          let consumed :=
            '<' :: 'w' :: ':' :: 't' :: attrs ++ '>' :: content ++ "</w:t>".data
          some (consumed, (consumed, content), r3)
        | _ => none
    | _ => none
  | _ => none

/-- `<w:t>` runs of the JSZip path: the full matches of
`/<w:t[^>]*>([^<]+)<\/w:t>/g` over `document.xml`, each stripped of tags and
trimmed, kept if non-empty. -/
def wtRunTexts (xml : String) : List String :=
  let fulls := gMatches (fun _ l => (matchAtWt true l).map fun (c, p, r) => (c, p.1, r)) xml
  (fulls.map fun f => jsTrimStr (stripTags (String.mk f))).filter fun t => 0 < t.data.length

/-- One attempt of `/<w:p[^>]*>.*?<\/w:p>/s`: literal `<w:p`, attributes up to
the first `>`, lazy gap (spanning line terminators — `s` flag) to the first
`</w:p>`. -/
def matchAtWp : List Char → Option (List Char × List Char × List Char)
  | '<' :: 'w' :: ':' :: 'p' :: r =>
    let attrs := r.takeWhile (· ≠ '>')
    match r.drop attrs.length with
    | '>' :: r2 =>
      match findSub "</w:p>".data r2 with
      | some idx =>
        let consumed :=
          '<' :: 'w' :: ':' :: 'p' :: attrs ++ '>' :: r2.take idx ++ "</w:p>".data
        some (consumed, consumed, r2.drop (idx + 6))
      | none => none
    | _ => none
  | _ => none

/-- Paragraph-level extraction of the JSZip path: for each
`/<w:p[^>]*>.*?<\/w:p>/gs` match, collect its `/<w:t[^>]*>([^<]*)<\/w:t>/g`
full matches (note the `*`: empty runs allowed); if there is at least one
(`String.match` returns `null` otherwise, skipping the paragraph), strip the
tags from each, join with no separator and trim; kept if non-empty. -/
def paragraphTexts (xml : String) : List String :=
  let paras := (gMatches (fun _ l => matchAtWp l) xml).map String.mk
  paras.filterMap fun p =>
    let inner := gMatches (fun _ l => (matchAtWt false l).map fun (c, pr, r) => (c, pr.1, r)) p
    if inner.isEmpty then none
    else
      let joined := jsTrimStr (String.join (inner.map fun f => stripTags (String.mk f)))
      if 0 < joined.data.length then some joined else none

/-- The final text assembly of the JSZip path:
`.filter(t => t && t.trim().length > 1).map(t => t.trim()).join(' ')`, collapse
whitespace, decode the `&lt; &gt; &amp;` entities (in that order), truncate to
50 000 characters. -/
def docxMainClean (extractedTexts : List String) : String :=
  let pieces :=
    (extractedTexts.filter fun t => t ≠ "" ∧ 1 < (jsTrimStr t).data.length).map jsTrimStr
  let joined := jsJoin " " pieces
  let collapsed := String.mk (collapseWsL joined.data)
  let entities := replaceSub "&amp;" "&" (replaceSub "&gt;" ">" (replaceSub "&lt;" "<" collapsed))
  jsTake entities 50000

/-- One attempt of `/<text[^>]*>([^<]+)<\/text>/`. -/
def matchAtTextTag :
    List Char → Option (List Char × (List Char × List Char) × List Char)
  | '<' :: 't' :: 'e' :: 'x' :: 't' :: r =>
    let attrs := r.takeWhile (· ≠ '>')
    match r.drop attrs.length with
    | '>' :: r2 =>
      let content := r2.takeWhile (· ≠ '<')
      if content.isEmpty then none
      else
        match r2.drop content.length with
        | '<' :: '/' :: 't' :: 'e' :: 'x' :: 't' :: '>' :: r3 =>
          let consumed :=
            '<' :: 't' :: 'e' :: 'x' :: 't' :: attrs ++ '>' :: content ++ "</text>".data
          some (consumed, (consumed, content), r3)
        | _ => none
    | _ => none
  | _ => none

/-- Lazy gap `.*?` without the `s` flag: the earliest position at which `inner`
matches, the skipped characters containing no line terminator. -/
def lazyGapNoTerm {α : Type} (inner : List Char → Option α) :
    List Char → Option (List Char × α)
  | [] => (inner []).map fun a => ([], a)
  | c :: rest =>
    match inner (c :: rest) with
    | some a => some ([], a)
    | none =>
      if isLineTerm c then none
      else (lazyGapNoTerm inner rest).map fun (g, a) => (c :: g, a)

/-- The literal `word\/document\.xml` of the third fallback pattern. -/
def wordDocXmlLit : List Char := "word/document.xml".data

/-- One attempt of `/\bword\/document\.xml.*?<w:t[^>]*>([^<]+)<\/w:t>/`: a word
boundary (the position's predecessor must not be a word character, the literal
starting with the word character `w`), the literal path, a lazy
terminator-free gap, then a `<w:t>` run whose content is the capture. -/
def matchAtBoundWordDoc (prev : Option Char) (s : List Char) :
    Option (List Char × (List Char × List Char) × List Char) :=
  if (match prev with | some p => isWordChar p | none => false) then none
  else if wordDocXmlLit.isPrefixOf s then
    let r := s.drop wordDocXmlLit.length
    match lazyGapNoTerm (matchAtWt true) r with
    | some (gap, (consumed, (_, content), rest)) =>
      let allConsumed := wordDocXmlLit ++ gap ++ consumed
      some (allConsumed, (allConsumed, content), rest)
    | none => none
  else none

/-- The character class of the fourth fallback pattern,
`[가-힣a-zA-Z0-9\s.,!?():\-\/\[\]{}'"@#$%^&*+=<>~`|\\]` (brace, apostrophe,
backtick and backslash members written via their code points). -/
def inBigClass (c : Char) : Bool :=
  isHangulSyl c || ('a' ≤ c && c ≤ 'z') || ('A' ≤ c && c ≤ 'Z') || isDigitA c ||
  jsIsWs c || c = '.' || c = ',' || c = '!' || c = '?' || c = '(' || c = ')' ||
  c = ':' || c = '-' || c = '/' || c = '[' || c = ']' ||
  c = Char.ofNat 0x7B || c = Char.ofNat 0x7D || c = Char.ofNat 0x27 || c = '"' ||
  c = '@' || c = '#' || c = '$' || c = '%' || c = '^' || c = '&' || c = '*' ||
  c = '+' || c = '=' || c = '<' || c = '>' || c = '~' || c = Char.ofNat 0x60 ||
  c = '|' || c = Char.ofNat 0x5C

/-- Largest `k` with `5 ≤ k ≤ bound` such that `close` occurs right after the
first `k` characters of `r`. -/
def findLargestK (r : List Char) (bound : Nat) (close : List Char) : Option Nat :=
  (List.range (bound + 1)).reverse.findSome? fun k =>
    if 5 ≤ k ∧ close.isPrefixOf (r.drop k) then some k else none

/-- One attempt of `/>[class]{5,}<\/w:t>/` (fourth fallback pattern): `>`
followed by a greedy run of class characters; since every character of
`</w:t>` is itself in the class, the greedy run overshoots and backtracking
selects the largest `k ≥ 5` at which the closing literal follows. -/
def matchAtBigClass : List Char → Option (List Char × List Char × List Char)
  | '>' :: r =>
    let run := r.takeWhile inBigClass
    let close := "</w:t>".data
    match findLargestK r run.length close with
    | some k =>
      let consumed := '>' :: r.take k ++ close
      some (consumed, consumed, r.drop (k + 6))
    | none => none
  | _ => none

/-- The four fallback `patterns` of `extractDocxFallback` applied in source
order; each match contributes `match[1] || match[0].replace(/<[^>]+>/g, '')`
(the first three have a non-empty capture group, the fourth has none and falls
back to its tag-stripped full match). -/
def docxFallbackTexts (text : String) : List String :=
  let p1 := (gMatches (fun _ l => matchAtWt true l) text).map fun pr => String.mk pr.2
  let p2 := (gMatches (fun _ l => matchAtTextTag l) text).map fun pr => String.mk pr.2
  let p3 := (gMatches matchAtBoundWordDoc text).map fun pr => String.mk pr.2
  let p4 := (gMatches (fun _ l => matchAtBigClass l) text).map fun f => stripTags (String.mk f)
  p1 ++ p2 ++ p3 ++ p4

/-- The fallback text assembly: `.filter(t => t && t.trim().length > 3)`, map
trim, join with spaces, collapse whitespace, truncate to 20 000 characters. -/
def docxFallbackClean (extractedTexts : List String) : String :=
  let pieces :=
    (extractedTexts.filter fun t => t ≠ "" ∧ 3 < (jsTrimStr t).data.length).map jsTrimStr
  jsTake (String.mk (collapseWsL (jsJoin " " pieces).data)) 20000

/-- `/[가-힣]/.test(fileName)`. -/
def hasKoreanChars (fileName : String) : Bool := fileName.data.any isHangulSyl

/-- `/프로젝트|project|원가관리|cost|management|제출|submit|한수원|KHNP/i.test(fileName)`:
case-insensitive, modelled by lowering the filename and each alternative. -/
def hasProjectKeywords (fileName : String) : Bool :=
  ["프로젝트", "project", "원가관리", "cost", "management", "제출", "submit",
   "한수원", "khnp"].any fun k => jsIncludes (jsToLower fileName) k

/-- The content-hint block of the filename placeholder, selected by
(case-sensitive) filename keywords: proposal, RFP, report, or generic. -/
def docxContentHint (fileName : String) : String :=
  if jsIncludes fileName "제안" || jsIncludes fileName "proposal" then
    "본 문서는 프로젝트 제안서로 분석됩니다.\n\n📋 주요 예상 구성 요소:\n- 프로젝트 개요 및 목표 설정\n- 솔루션 개요 및 기술적 접근방법\n- 사업 계획 및 일정 관리\n- 예산 및 투자 계획 세부 사항\n- 기대효과 및 리스크 관리 방안"
  else if jsIncludes fileName "RFP" || jsIncludes fileName "rfp" then
    "본 문서는 RFP(제안요청서)로 분석됩니다.\n\n📋 주요 예상 구성 요소:\n- 사업 개요 및 추진 배경\n- 기술 요구사항 및 성능 기준\n- 평가 기준 및 점수 체계\n- 제출 조건 및 일정 관리\n- 계약 조건 및 법적 사항"
  else if jsIncludes fileName "보고서" || jsIncludes fileName "report" then
    "본 문서는 프로젝트 보고서로 분석됩니다.\n\n📋 주요 예상 구성 요소:\n- 프로젝트 현황 및 진행 상황\n- 성과 및 결과 분석 내용\n- 문제점 및 개선 사항\n- 향후 추진 계획 및 대안\n- 결론 및 제언 사항"
  else
    "본 문서는 업무 관련 전문 문서로 분석됩니다.\n\n📋 주요 예상 구성 요소:\n- 업무 목적 및 추진 배경\n- 기술적 내용 및 전문 지식\n- 실행 계획 및 운영 방안\n- 성과 측정 및 품질 관리\n- 개선 제안 및 발전 방향"

/-- The synthesized `fallbackContent` template of `extractDocxFallback`
(`currentDate` is the oracle for `new Date().toLocaleDateString('ko-KR')`). -/
def docxFilenameTemplate (currentDate fileName : String) : String :=
  "DOCX 문서 전문 분석 - " ++ (fileName ++
  "\n\n📄 문서 정보:\n- 파일명: " ++ fileName ++
  "\n- 형식: Microsoft Word 문서 (DOCX)\n- 업로드일: " ++ currentDate ++
  "\n- 업로드 완료: ✅\n- 언어: " ++
  (if hasKoreanChars fileName then "한국어 포함" else "영문") ++
  "\n\n🔍 문서 내용 분석:\n" ++ docxContentHint fileName ++ "\n\n" ++
  (if hasProjectKeywords fileName then
    "🔍 파일명 기반 특화 분석:\n- 원가관리/프로젝트 관련 전문 문서\n- 한수원(KHNP) 등 주요 기관 업무\n- 공식 제출용 문서 수준\n\n"
   else "") ++
  "🤖 AI 평가 시스템:\n6대 지표(명확성, 전문성, 설득력, 논리성, 창의성, 신뢰성)로\n정확하고 의미 있는 100점 만점 평가를 제공합니다.")

/-- The `{text, extraction_method}` pair the DOCX path returns
(`extraction_method` is a plain string there). -/
structure DocxResult where
  text : String
  extraction_method : String
deriving DecidableEq, Repr

/-- `extractDocxFallback(docxBuffer, fileName)`: decode the buffer permissively
and scan it with the four XML text-run patterns; if the assembled text is
falsy or trims below 20 characters, substitute the filename-based template.
The method's `catch` arm (tag `'docx_error'`) is unreachable: the `try` body is
a non-fatal decode followed by total regex and string operations, none of
which can throw. -/
def extractDocxFallback (currentDate : String) (docxBuffer : List Nat)
    (fileName : String) : DocxResult :=
  let text := utf8DecodeLossyStr docxBuffer
  let extractedTexts := docxFallbackTexts text
  let cleanText := docxFallbackClean extractedTexts
  if cleanText = "" ∨ (jsTrimStr cleanText).data.length < 20 then
    { text := docxFilenameTemplate currentDate fileName,
      extraction_method := "docx_filename_fallback" }
  else
    { text := cleanText, extraction_method := "docx_fallback" }

/-- `extractTextFromDocx(docxBuffer, fileName)`.  Oracles: `jszipAvailable`
models the `!JSZip` guard (the static import makes it always `true` at
runtime); `zipLoad` models `zip.loadAsync` + `documentXml.async('string')` —
`.error` if either throws (both failures are caught and fall back),
`.ok none` if `word/document.xml` is absent, `.ok (some xml)` its decoded
content otherwise.  If the assembled text is shorter than 10 characters the
fallback is used instead. -/
def extractTextFromDocx (jszipAvailable : Bool)
    (zipLoad : Except String (Option String)) (currentDate : String)
    (docxBuffer : List Nat) (fileName : String) : DocxResult :=
  if ¬jszipAvailable then extractDocxFallback currentDate docxBuffer fileName
  else
    match zipLoad with
    | .error _ => extractDocxFallback currentDate docxBuffer fileName
    | .ok none => extractDocxFallback currentDate docxBuffer fileName
    | .ok (some xmlContent) =>
      let extractedTexts := wtRunTexts xmlContent ++ paragraphTexts xmlContent
      let cleanText := docxMainClean extractedTexts
      if cleanText.data.length < 10 then
        extractDocxFallback currentDate docxBuffer fileName
      else
        { text := cleanText, extraction_method := "jszip_docx" }

/-! ## Document structure analysis (`analyzeDocumentStructure` and helpers) -/

/-- Largest index `k` with `lo ≤ k < w.length` whose character is not a line
terminator (the backtracking positions the greedy `\s+`/`\s*` can give back to
`(.+)` when the input ends inside the whitespace run). -/
def findLargestNonTerm (w : List Char) (lo : Nat) : Option Nat :=
  (List.range w.length).reverse.findSome? fun k =>
    if decide (lo ≤ k) && (match w.drop k with | c :: _ => !isLineTerm c | [] => false) then
      some k
    else none

/-- The tail `\s+(.+)` (with `plus = true`) or `\s*(.+)` (with `plus = false`)
of the heading patterns, matched at `r` with greedy backtracking: the maximal
whitespace run is consumed first and `(.+)` — one or more characters other
than a line terminator — starts right after it (the character there is
non-whitespace, hence no terminator) and extends to the next line terminator
or the end; when the input ends inside the run, the greedy quantifier backs up
to the rightmost admissible run position holding a non-terminator.  Returns
the consumed tail. -/
def headTail (plus : Bool) (r : List Char) : Option (List Char) :=
  let w := r.takeWhile jsIsWs
  if plus ∧ w.isEmpty then none
  else
    match r.drop w.length with
    | c :: rest => some (w ++ c :: rest.takeWhile fun x => ¬isLineTerm x)
    | [] =>
      match findLargestNonTerm w (if plus then 1 else 0) with
      | some k => some (w.take k ++ (w.drop k).takeWhile fun x => ¬isLineTerm x)
      | none => none

/-- One attempt of `/\d+\.\s+(.+)/` at an (already `^`-anchored) position:
maximal digit run, a literal dot, then the `\s+(.+)` tail. -/
def headPat1At (s : List Char) : Option (List Char × List Char × List Char) :=
  let ds := s.takeWhile isDigitA
  if ds.isEmpty then none
  else
    match s.drop ds.length with
    | '.' :: r =>
      match headTail true r with
      | some tail =>
        let consumed := ds ++ '.' :: tail
        some (consumed, consumed, r.drop tail.length)
      | none => none
    | _ => none

/-- One attempt of `/제\d+장\s+(.+)/` at an anchored position. -/
def headPat2At (s : List Char) : Option (List Char × List Char × List Char) :=
  match s with
  | '제' :: r =>
    let ds := r.takeWhile isDigitA
    if ds.isEmpty then none
    else
      match r.drop ds.length with
      | '장' :: r2 =>
        match headTail true r2 with
        | some tail =>
          let consumed := '제' :: ds ++ '장' :: tail
          some (consumed, consumed, r2.drop tail.length)
        | none => none
      | _ => none
  | _ => none

/-- One attempt of `/[가-힣]+\s*[:：]\s*(.+)/` at an anchored position: a
maximal Hangul run (Hangul is neither whitespace nor a colon), optional
whitespace, an ASCII or fullwidth colon, then the `\s*(.+)` tail. -/
def headPat3At (s : List Char) : Option (List Char × List Char × List Char) :=
  let hs := s.takeWhile isHangulSyl
  if hs.isEmpty then none
  else
    let r := s.drop hs.length
    let w := r.takeWhile jsIsWs
    match r.drop w.length with
    | c :: r2 =>
      if c = ':' ∨ c = '：' then
        match headTail false r2 with
        | some tail =>
          let consumed := hs ++ w ++ c :: tail
          some (consumed, consumed, r2.drop tail.length)
        | none => none
      else none
    | [] => none

/-- One attempt of `/[A-Z][^\n]{10,50}/` at an anchored position: a capital
letter then the greedy run of up to fifty `\n`-free characters, of which at
least ten must exist (`[^\n]` excludes only `\n`; CR and U+2028/U+2029 are
allowed). -/
def headPat4At (s : List Char) : Option (List Char × List Char × List Char) :=
  match s with
  | c :: r =>
    if isUpperA c then
      let body := (r.takeWhile (· ≠ '\n')).take 50
      if 10 ≤ body.length then
        let consumed := c :: body
        some (consumed, consumed, r.drop body.length)
      else none
    else none
  | [] => none

/-- `t.match(re)` for a `gm`-flag `^`-anchored regex: collect the full matches
of `pat`, trying it only where multiline `^` holds — at the start of the
input and immediately after any line terminator (CR, LF, U+2028, U+2029; a
CR that sits in the middle of a trimmed line survives both `split('\n')` and
`trim()`). -/
def anchoredMatches (pat : List Char → Option (List Char × List Char × List Char))
    (t : List Char) : List (List Char) :=
  gScan
    (fun prev s =>
      if (match prev with | none => true | some p => isLineTerm p) then pat s else none)
    (t.length + 1) none t

/-- The `match` array of the first of the four `sectionPatterns` that matches
the trimmed line (the source loop breaks at the first pattern with a
non-`null` result): `String.match` with a `g` regex yields the array of all
full-match strings. -/
def headingMatchList (t : List Char) : Option (List (List Char)) :=
  let m1 := anchoredMatches headPat1At t
  if ¬m1.isEmpty then some m1 else
  let m2 := anchoredMatches headPat2At t
  if ¬m2.isEmpty then some m2 else
  let m3 := anchoredMatches headPat3At t
  if ¬m3.isEmpty then some m3 else
  let m4 := anchoredMatches headPat4At t
  if ¬m4.isEmpty then some m4 else none

/-- Does a trimmed line match one of the four `sectionPatterns` (anywhere a
multiline `^` anchors)? -/
def isHeadingLine (t : List Char) : Bool :=
  (headingMatchList t).isSome

/-- The new section's title, `match[1] || trimmedLine`: with a `g`-flag regex
`match[1]` is the *second full match* of the winning pattern, used when it
exists (a full match is never the empty string, but the falsy-`""` fallback of
`||` is modelled anyway); otherwise the trimmed line itself. -/
def sectionTitle (trimmedLine : String) : String :=
  match headingMatchList trimmedLine.data with
  | some (_ :: second :: _) => if second = [] then trimmedLine else String.mk second
  | _ => trimmedLine

inductive SectionType where
  | header | body | table | list | conclusion
deriving DecidableEq, Repr

/-- `determineSectionType(title)`: keyword classification of a section
title. -/
def determineSectionType (title : String) : SectionType :=
  let titleLower := jsToLower title
  if jsIncludes titleLower "목차" || jsIncludes titleLower "차례" ||
      jsIncludes titleLower "개요" then .header
  else if jsIncludes titleLower "표" || jsIncludes titleLower "table" ||
      jsIncludes titleLower "비교" then .table
  else if jsIncludes titleLower "목록" || jsIncludes titleLower "list" ||
      jsIncludes titleLower "항목" then .list
  else if jsIncludes titleLower "결론" || jsIncludes titleLower "마무리" ||
      jsIncludes titleLower "요약" || jsIncludes titleLower "conclusion" ||
      jsIncludes titleLower "summary" then .conclusion
  else .body

structure DocSection where
  title : String
  content : String
  section_type : SectionType
  word_count : Nat
deriving DecidableEq, Repr

/-- The accumulating state of the line loop of `identifyDocumentSections`. -/
structure SecState where
  curTitle : String
  curContent : String
  curType : SectionType
  acc : List DocSection
deriving DecidableEq, Repr

/-- Close the current section, computing its whitespace-token word count. -/
def closeSection (st : SecState) : DocSection :=
  { title := st.curTitle, content := st.curContent, section_type := st.curType,
    word_count := (jsSplitWs st.curContent).length }

/-- One iteration of the line loop of `identifyDocumentSections`: blank lines
are skipped (`continue`) — not appended anywhere; a heading line closes the
previous section (pushed only if its content is truthy after trimming) and
opens a new one; any other line is appended to the current content as
`line + '\n'`.

The new section's title is `match[1] || trimmedLine` (`sectionTitle`): with
`String.match` and a `g`-flag regex the array holds full-match strings, so
`match[1]` is the second full match of the winning pattern — it exists only
when an interior line terminator lets multiline `^` anchor a second match —
and otherwise the trimmed line itself is used. -/
def sectionStep (st : SecState) (line : String) : SecState :=
  let trimmedLine := jsTrimStr line
  if trimmedLine = "" then st
  else if isHeadingLine trimmedLine.data then
    let acc' := if jsTrimStr st.curContent ≠ "" then st.acc ++ [closeSection st] else st.acc
    { curTitle := sectionTitle trimmedLine, curContent := "",
      curType := determineSectionType trimmedLine, acc := acc' }
  else
    { st with curContent := st.curContent ++ line ++ "\n" }

/-- `identifyDocumentSections(text)`: split into lines, run the section loop
(initial section titled `문서 시작`), push the final section if non-blank, and
fall back to a single `전체 문서` section when nothing was collected. -/
def identifyDocumentSections (text : String) : List DocSection :=
  let lines := jsSplitChar '\n' text
  let st0 : SecState :=
    { curTitle := "문서 시작", curContent := "", curType := .body, acc := [] }
  let fin := lines.foldl sectionStep st0
  let sections :=
    if jsTrimStr fin.curContent ≠ "" then fin.acc ++ [closeSection fin] else fin.acc
  if 0 < sections.length then sections
  else
    [{ title := "전체 문서", content := text, section_type := .body,
       word_count := (jsSplitWs text).length }]

inductive DocumentType where
  | rfp | proposal | report | presentation | other
deriving DecidableEq, Repr

/-- `keywords.some(k => textLower.includes(k) || fileNameLower.includes(k))`. -/
def keywordHit (textLower fileNameLower : String) (ks : List String) : Bool :=
  ks.any fun k => jsIncludes textLower k || jsIncludes fileNameLower k

/-- `estimateDocumentType(text, fileName)`: ordered keyword sets, first match
wins. -/
def estimateDocumentType (text fileName : String) : DocumentType :=
  let textLower := jsToLower text
  let fileNameLower := jsToLower fileName
  if keywordHit textLower fileNameLower
      ["request for proposal", "rfp", "제안요청서", "입찰공고", "사업계획", "요구사항", "평가기준"] then
    .rfp
  else if keywordHit textLower fileNameLower
      ["제안서", "proposal", "사업제안", "기술제안", "솔루션", "방안", "추진계획"] then
    .proposal
  else if keywordHit textLower fileNameLower
      ["보고서", "report", "분석", "결과", "현황", "실적"] then
    .report
  else if keywordHit textLower fileNameLower
      ["발표", "presentation", "ppt", "설명자료", "브리핑"] then
    .presentation
  else .other

/-- The Korean stop-word set of `extractKeyTopics`. -/
def stopWords : List String :=
  ["그리고", "하지만", "그러나", "또한", "따라서", "이것", "그것", "이에", "대한", "위한",
   "통해", "대해", "있는", "없는", "되는", "하는", "같은", "다른", "새로운", "기본",
   "주요", "전체", "일반", "특별"]

/-- `wordCount.set(word, (wordCount.get(word) || 0) + 1)` on an
insertion-ordered association list (JS `Map` preserves insertion order). -/
def bumpCount : List (String × Nat) → String → List (String × Nat)
  | [], w => [(w, 1)]
  | (k, n) :: rest, w =>
    if k = w then (k, n + 1) :: rest else (k, n) :: bumpCount rest w

/-- Stable insertion for a descending sort by count: the new entry goes before
the first entry with a strictly smaller count, preserving the relative order
of equal counts (`Array.prototype.sort` is stable and the comparator is
`(a, b) => b[1] - a[1]`). -/
def insertByCount (x : String × Nat) : List (String × Nat) → List (String × Nat)
  | [] => [x]
  | y :: r => if y.2 < x.2 then x :: y :: r else y :: insertByCount x r

/-- Stable descending-by-count sort (insertion formulation). -/
def sortByCountDesc (l : List (String × Nat)) : List (String × Nat) :=
  l.foldl (fun acc x => insertByCount x acc) []

/-- `extractKeyTopics(text)`: lowercase, map characters outside `[\w가-힣\s]`
to spaces, split on whitespace, drop short tokens and stop words, count
frequencies and return the ten most frequent tokens. -/
def extractKeyTopics (text : String) : List String :=
  let processed := (jsToLower text).data.map fun c =>
    if isWordChar c || isHangulSyl c || jsIsWs c then c else ' '
  let words := ((splitWsL processed).map String.mk).filter fun w =>
    2 < w.data.length ∧ ¬stopWords.contains w
  let counts := words.foldl bumpCount []
  ((sortByCountDesc counts).take 10).map Prod.fst

structure DocumentStructure where
  sections : List DocSection
  document_type : DocumentType
  key_topics : List String
  estimated_reading_time : Nat
deriving DecidableEq, Repr

/-- `analyzeDocumentStructure(text, fileName)` (declared `async` in source but
purely computational): document type, sections, key topics, and the reading
time `Math.ceil(wordCount / 200)`. -/
def analyzeDocumentStructure (text fileName : String) : DocumentStructure :=
  let documentType := estimateDocumentType text fileName
  let sections := identifyDocumentSections text
  let keyTopics := extractKeyTopics text
  let wordCount := (jsSplitWs text).length
  let estimatedReadingTime := (wordCount + 199) / 200
  { sections := sections, document_type := documentType, key_topics := keyTopics,
    estimated_reading_time := estimatedReadingTime }

/-! ## Derived notions used to state the claims -/

/-- The contribution of one input line to the concatenated section contents of
`identifyDocumentSections`: blank and heading lines contribute nothing, any
other line contributes itself plus the newline appended by the loop. -/
def keptLine (line : String) : Option String :=
  let t := jsTrimStr line
  if t = "" then none
  else if isHeadingLine t.data then none
  else some (line ++ "\n")

/-- Concatenation (no separator) of a list of strings. -/
def concatAll : List String → String
  | [] => ""
  | s :: r => s ++ concatAll r

/-- The concatenation of the line contributions of `keptLine` over a text. -/
def keptConcat (text : String) : String :=
  concatAll ((jsSplitChar '\n' text).filterMap keptLine)

/-- Ordered concatenation of the `content` fields of a section list. -/
def contentsConcat (secs : List DocSection) : String :=
  concatAll (secs.map (·.content))

/-- The round-trip claim's reading of "the original text modulo the heading
lines removed into titles": the text with heading lines deleted and every
other line (blank lines included) kept with the original `\n` separators. -/
def textWithoutHeadingLines (text : String) : String :=
  jsJoin "\n" ((jsSplitChar '\n' text).filter fun l => ¬isHeadingLine (jsTrimStr l).data)

/-- `l` has a non-whitespace head character whenever it is non-empty (the key
invariant behind the non-empty-after-trim arguments). -/
def NoWsHead (l : List Char) : Prop :=
  ∀ c cs, l = c :: cs → jsIsWs c = false

/-- Invariant of the section loop of `identifyDocumentSections`: the content
being accumulated is empty or survives trimming, and every already-closed
section has non-empty content. -/
def SecInv (st : SecState) : Prop :=
  (st.curContent = "" ∨ jsTrimStr st.curContent ≠ "") ∧
  ∀ sec ∈ st.acc, sec.content ≠ ""

/-! ## Supporting lemmas -/

theorem dropWhile_forall_iff {p : Char → Bool} {l : List Char} :
    (∀ c ∈ l.dropWhile p, p c) ↔ ∀ c ∈ l, p c := by
  induction l with
  | nil => simp
  | cons a l ih =>
    by_cases h : p a
    · simp only [List.dropWhile_cons, h, if_true, ih, List.mem_cons]
      constructor
      · intro hall c hc
        rcases hc with rfl | hc
        · exact h
        · exact hall c hc
      · intro hall c hc
        exact hall c (Or.inr hc)
    · simp [List.dropWhile_cons, h]

theorem jsTrimL_eq_nil_iff {l : List Char} :
    jsTrimL l = [] ↔ ∀ c ∈ l, jsIsWs c := by
  unfold jsTrimL
  rw [List.reverse_eq_nil_iff, List.dropWhile_eq_nil_iff]
  constructor
  · intro h
    rw [← dropWhile_forall_iff (p := jsIsWs)]
    intro c hc
    exact h c (List.mem_reverse.mpr hc)
  · intro h c hc
    exact (dropWhile_forall_iff.mpr h) c (List.mem_reverse.mp hc)

theorem jsTrimStr_eq_empty_iff {s : String} :
    jsTrimStr s = "" ↔ ∀ c ∈ s.data, jsIsWs c := by
  unfold jsTrimStr
  constructor
  · intro h
    exact jsTrimL_eq_nil_iff.mp (by simpa using congrArg String.data h)
  · intro h
    have : jsTrimL s.data = [] := jsTrimL_eq_nil_iff.mpr h
    simp [this]

theorem jsTrimStr_ne_empty_of_mem {s : String} {c : Char}
    (hc : c ∈ s.data) (hw : jsIsWs c = false) : jsTrimStr s ≠ "" := by
  intro h
  have := jsTrimStr_eq_empty_iff.mp h c hc
  simp [hw] at this

theorem head_dropWhile_false {p : Char → Bool} {l : List Char} {c : Char} {cs : List Char}
    (h : l.dropWhile p = c :: cs) : p c = false := by
  induction l with
  | nil => simp at h
  | cons a l ih =>
    by_cases hp : p a
    · rw [List.dropWhile_cons, if_pos hp] at h
      exact ih h
    · rw [List.dropWhile_cons, if_neg hp] at h
      cases h
      simpa using hp

/-- The trimmed form of a list is one of its prefixes with whitespace stripped
in front; in particular a non-empty trim starts with a non-whitespace
character. -/
theorem jsTrimL_head_not_ws {l : List Char} {c : Char} {cs : List Char}
    (h : jsTrimL l = c :: cs) : jsIsWs c = false := by
  unfold jsTrimL at h
  set d := l.dropWhile jsIsWs with hd
  have hsuffix : (d.reverse.dropWhile jsIsWs) <:+ d.reverse := List.dropWhile_suffix _
  have hpre : (d.reverse.dropWhile jsIsWs).reverse <+: d := by
    obtain ⟨u, hu⟩ := hsuffix
    refine ⟨u.reverse, ?_⟩
    have h2 := congrArg List.reverse hu
    simpa [List.reverse_append] using h2
  rw [h] at hpre
  obtain ⟨t, ht⟩ := hpre
  have : d = c :: (cs ++ t) := by rw [← ht]; simp
  exact head_dropWhile_false (hd ▸ this)

theorem jsTrimStr_head_not_ws {s : String} {c : Char} {cs : List Char}
    (h : (jsTrimStr s).data = c :: cs) : jsIsWs c = false :=
  jsTrimL_head_not_ws (l := s.data) (by simpa [jsTrimStr] using h)

theorem noWsHead_nil : NoWsHead [] := by intro c cs h; cases h

theorem noWsHead_jsTrim (s : String) : NoWsHead (jsTrimStr s).data := by
  intro c cs h
  exact jsTrimStr_head_not_ws h

theorem jsTrimStr_ne_empty_of_noWsHead {s : String}
    (hne : s.data ≠ []) (hh : NoWsHead s.data) : jsTrimStr s ≠ "" := by
  cases hdata : s.data with
  | nil => exact absurd hdata hne
  | cons c cs =>
    exact jsTrimStr_ne_empty_of_mem (by rw [hdata]; exact List.mem_cons_self c cs)
      (hh c cs hdata)

theorem collapseWsL_cons_of_not_ws {a : Char} {r : List Char} (ha : jsIsWs a = false) :
    collapseWsL (a :: r) = a :: collapseWsL r := by
  show collapseWsF (r.length + 1 + 1) (a :: r) = a :: collapseWsF (r.length + 1) r
  rw [collapseWsF]
  simp [ha]

theorem collapseWsL_noWsHead {l : List Char} (h : NoWsHead l) :
    NoWsHead (collapseWsL l) := by
  intro c cs hc
  cases l with
  | nil => simp [collapseWsL, collapseWsF] at hc
  | cons a r =>
    have ha : jsIsWs a = false := h a r rfl
    rw [collapseWsL_cons_of_not_ws ha] at hc
    injection hc with h1 _
    exact h1 ▸ ha

theorem collapseWsL_ne_nil {l : List Char} (h : l ≠ []) : collapseWsL l ≠ [] := by
  cases l with
  | nil => exact absurd rfl h
  | cons a r =>
    show collapseWsF (r.length + 1 + 1) (a :: r) ≠ []
    rw [collapseWsF]
    split <;> simp

theorem replaceSubF_ne_nil {pat rep : List Char} {fuel : Nat} {l : List Char}
    (hrep : rep ≠ []) (hl : l ≠ []) : replaceSubF pat rep fuel l ≠ [] := by
  cases fuel with
  | zero => simpa [replaceSubF] using hl
  | succ n =>
    cases l with
    | nil => exact absurd rfl hl
    | cons c r =>
      rw [replaceSubF]
      split
      · simp [hrep]
      · simp

theorem replaceSubF_noWsHead {pat rep : List Char} {fuel : Nat} {l : List Char}
    (hrepne : rep ≠ []) (hrep : NoWsHead rep) (hl : NoWsHead l) :
    NoWsHead (replaceSubF pat rep fuel l) := by
  intro c cs hc
  cases fuel with
  | zero => exact hl c cs (by simpa [replaceSubF] using hc)
  | succ n =>
    cases l with
    | nil => simp [replaceSubF] at hc
    | cons a r =>
      rw [replaceSubF] at hc
      split at hc
      · cases hb : rep with
        | nil => exact absurd hb hrepne
        | cons b bs =>
          rw [hb, List.cons_append] at hc
          injection hc with h1 _
          exact h1 ▸ hrep b bs hb
      · injection hc with h1 _
        exact h1 ▸ hl a r rfl

theorem take_noWsHead {l : List Char} {n : Nat} (h : NoWsHead l) :
    NoWsHead (l.take n) := by
  intro c cs hc
  cases l with
  | nil => simp at hc
  | cons a r =>
    cases n with
    | zero => simp at hc
    | succ m =>
      rw [List.take_succ_cons] at hc
      injection hc with h1 _
      exact h1 ▸ h a r rfl

theorem take_ne_nil {l : List Char} {n : Nat} (hl : l ≠ []) (hn : 0 < n) :
    l.take n ≠ [] := by
  cases l with
  | nil => exact absurd rfl hl
  | cons a r =>
    cases n with
    | zero => exact absurd hn (by simp)
    | succ m => simp [List.take_succ_cons]

theorem string_eq_empty_iff {s : String} : s = "" ↔ s.data = [] := by
  constructor
  · intro h; simp [h]
  · intro h; exact String.ext h

theorem string_append_eq_empty_iff {a b : String} : a ++ b = "" ↔ a = "" ∧ b = "" := by
  simp [string_eq_empty_iff, String.data_append]

theorem concatAll_append (a b : List String) :
    concatAll (a ++ b) = concatAll a ++ concatAll b := by
  induction a with
  | nil => simp [concatAll, String.empty_append]
  | cons s r ih => simp [concatAll, ih, String.append_assoc]

theorem concatAll_eq_empty_iff {l : List String} :
    concatAll l = "" ↔ ∀ s ∈ l, s = "" := by
  induction l with
  | nil => simp [concatAll]
  | cons s r ih => simp [concatAll, string_append_eq_empty_iff, ih]

theorem jsJoinL_noWsHead {sep : List Char} {ps : List (List Char)}
    (h : ∀ p ∈ ps, p ≠ [] ∧ NoWsHead p) : NoWsHead (jsJoinL sep ps) := by
  cases ps with
  | nil => exact noWsHead_nil
  | cons p r =>
    cases r with
    | nil => exact (h p (by simp)).2
    | cons q r' =>
      intro c cs hc
      obtain ⟨hne, hh⟩ := h p (by simp)
      rw [show jsJoinL sep (p :: q :: r') = p ++ sep ++ jsJoinL sep (q :: r') from rfl] at hc
      cases hp : p with
      | nil => exact absurd hp hne
      | cons a as =>
        rw [hp, List.cons_append, List.cons_append] at hc
        injection hc with h1 _
        exact h1 ▸ hh a as hp

/-- `fileName.endsWith('.txt')` implies
`fileName.toLowerCase().endsWith('.txt')`. -/
theorem jsEndsWith_toLower_txt {fileName : String}
    (h : jsEndsWith fileName ".txt" = true) :
    jsEndsWith (jsToLower fileName) ".txt" = true := by
  unfold jsEndsWith at h ⊢
  rw [List.isSuffixOf_iff_suffix] at h ⊢
  have h2 := h.map Char.toLower
  have e : ".txt".data.map Char.toLower = ".txt".data := by decide
  rw [e] at h2
  simpa [jsToLower] using h2

/-- The trimmed survivors the JSZip path joins are non-empty and start with a
non-whitespace character. -/
theorem noWsHead_singleton {a : Char} (ha : jsIsWs a = false) : NoWsHead [a] := by
  intro c cs h
  injection h with h1 _
  exact h1 ▸ ha

theorem docx_pieces_ok (ts : List String) (len : Nat) :
    ∀ p ∈ (ts.filter fun t => t ≠ "" ∧ len < (jsTrimStr t).data.length).map jsTrimStr,
      p.data ≠ [] ∧ NoWsHead p.data := by
  intro p hp
  simp only [List.mem_map, List.mem_filter, decide_eq_true_eq] at hp
  obtain ⟨t, ⟨-, -, hcond⟩, rfl⟩ := hp
  refine ⟨?_, noWsHead_jsTrim t⟩
  intro h0
  rw [h0] at hcond
  simp at hcond

/-- The assembled JSZip-path text always starts with a non-whitespace
character when non-empty. -/
theorem docxMainClean_noWsHead (ts : List String) :
    NoWsHead (docxMainClean ts).data := by
  refine take_noWsHead
    (replaceSubF_noWsHead (by decide) (noWsHead_singleton (by decide))
      (replaceSubF_noWsHead (by decide) (noWsHead_singleton (by decide))
        (replaceSubF_noWsHead (by decide) (noWsHead_singleton (by decide))
          (collapseWsL_noWsHead (jsJoinL_noWsHead ?_)))))
  intro q hq
  obtain ⟨p, hp, rfl⟩ := List.mem_map.mp hq
  exact docx_pieces_ok ts 1 p hp

/-- The filename template text never trims to the empty string (it starts with
the literal `DOCX`). -/
theorem docxFilenameTemplate_trim_ne (currentDate fileName : String) :
    jsTrimStr (docxFilenameTemplate currentDate fileName) ≠ "" := by
  refine jsTrimStr_ne_empty_of_mem (c := 'D') ?_ (by decide)
  show 'D' ∈ (docxFilenameTemplate currentDate fileName).data
  unfold docxFilenameTemplate
  rw [String.data_append]
  exact List.mem_append_left _ (by decide)

/-- `extractDocxFallback` never returns text that trims to the empty string:
either the kept scan text trims to at least 20 characters, or the filename
template is substituted. -/
theorem extractDocxFallback_trim_ne (currentDate : String) (docxBuffer : List Nat)
    (fileName : String) :
    jsTrimStr (extractDocxFallback currentDate docxBuffer fileName).text ≠ "" := by
  unfold extractDocxFallback
  dsimp only
  split
  · exact docxFilenameTemplate_trim_ne currentDate fileName
  · next hcond =>
    push_neg at hcond
    obtain ⟨-, hlen⟩ := hcond
    intro h0
    rw [string_eq_empty_iff] at h0
    rw [h0] at hlen
    simp at hlen

/-- The JSZip-success branch of `extractTextFromDocx` never returns text that
trims to the empty string. -/
theorem docx_jszip_branch_trim_ne (currentDate : String) (docxBuffer : List Nat)
    (fileName xmlContent : String) :
    jsTrimStr
      ((if (docxMainClean (wtRunTexts xmlContent ++ paragraphTexts xmlContent)).data.length < 10
        then extractDocxFallback currentDate docxBuffer fileName
        else { text := docxMainClean (wtRunTexts xmlContent ++ paragraphTexts xmlContent),
               extraction_method := "jszip_docx" } : DocxResult)).text ≠ "" := by
  split
  · exact extractDocxFallback_trim_ne currentDate docxBuffer fileName
  · next hlen =>
    apply jsTrimStr_ne_empty_of_noWsHead
    · intro hnil
      rw [hnil] at hlen
      simp at hlen
    · exact docxMainClean_noWsHead _

set_option maxHeartbeats 1000000 in
/-- `extractTextFromDocx` never returns text that trims to the empty string. -/
theorem extractTextFromDocx_trim_ne (jszipAvailable : Bool)
    (zipLoad : Except String (Option String)) (currentDate : String)
    (docxBuffer : List Nat) (fileName : String) :
    jsTrimStr (extractTextFromDocx jszipAvailable zipLoad currentDate docxBuffer fileName).text
      ≠ "" := by
  cases jszipAvailable with
  | false => exact extractDocxFallback_trim_ne currentDate docxBuffer fileName
  | true =>
    cases zipLoad with
    | error msg => exact extractDocxFallback_trim_ne currentDate docxBuffer fileName
    | ok o =>
      cases o with
      | none => exact extractDocxFallback_trim_ne currentDate docxBuffer fileName
      | some xmlContent =>
        exact docx_jszip_branch_trim_ne currentDate docxBuffer fileName xmlContent

/-- The pattern-scan extractor reports the `'fallback'` tag on its (only
reachable) path. -/
theorem extractWithFallbackMethod_method (pdfBuffer : List Nat) :
    (extractWithFallbackMethod pdfBuffer).method = PdfMethod.fallback := rfl

/-- After a primary failure, any returned result has the `'fallback'` tag. -/
theorem method_after_primary_error {e : String} {pl : Except String PdfLibDoc}
    {buf : List Nat} {fileName : String} {r : PdfExtractionResult}
    (h : extractTextFromPdf (.error e) pl buf fileName = .ok r) :
    r.extraction_method = PdfMethod.fallback := by
  cases pl with
  | error msg => simp [extractTextFromPdf, extractWithPdfLib] at h
  | ok doc =>
    simp only [extractTextFromPdf, extractWithPdfLib, Except.ok.injEq] at h
    rw [← h]
    rfl

/-- On a primary success, the result has the `'pdf-parse'` tag. -/
theorem method_after_primary_ok {d : PdfParseData} {pl : Except String PdfLibDoc}
    {buf : List Nat} {fileName : String} {r : PdfExtractionResult}
    (h : extractTextFromPdf (.ok d) pl buf fileName = .ok r) :
    r.extraction_method = PdfMethod.pdfParse := by
  simp only [extractTextFromPdf, Except.ok.injEq] at h
  rw [← h]

/-- `slicePages` yields no page at all when the declared page count is zero or
the text is empty. -/
theorem slicePages_eq_nil {text : String} {numpages : Nat}
    (h : numpages = 0 ∨ text = "") : slicePages text numpages = [] := by
  rcases h with h | h
  · simp [slicePages, h]
  · unfold slicePages
    split
    · rfl
    · rw [List.filterMap_eq_nil_iff]
      intro i _
      simp [h, jsSubstring, jsTrimStr, jsTrimL]

/-! ## The claims -/

/-- **C2.** For every buffer whose first four bytes are `0x25 0x50 0x44 0x46`
(ASCII `%PDF`) and every filename, `validateFileType` returns
`{isValid: true, fileType: 'pdf', mimeType: 'application/pdf'}` — the filename
plays no role in PDF classification. -/
theorem pdf_signature_classifies_as_pdf (buffer : List Nat) (fileName : String)
    (h0 : buffer[0]? = some 0x25) (h1 : buffer[1]? = some 0x50)
    (h2 : buffer[2]? = some 0x44) (h3 : buffer[3]? = some 0x46) :
    validateFileType buffer fileName =
      { isValid := true, fileType := .pdf, mimeType := "application/pdf" } := by
  unfold validateFileType
  simp [h0, h1, h2, h3]

theorem pdf_signature_classifies_as_pdf_witness :
    validateFileType [0x25, 0x50, 0x44, 0x46] "rfp.pdf" =
      { isValid := true, fileType := .pdf, mimeType := "application/pdf" } :=
  pdf_signature_classifies_as_pdf [0x25, 0x50, 0x44, 0x46] "rfp.pdf" rfl rfl rfl rfl

/-- **C3.** For every buffer starting with the ZIP magic `0x50 0x4B` (`PK`) —
which cannot simultaneously carry the PDF signature — classification is
`docx`/valid exactly when the filename ends in `.docx`; without that extension
(and with the TXT rule not applying either) the result is
`{isValid: false, fileType: 'unknown'}`. -/
theorem zip_magic_docx_iff_extension (buffer : List Nat) (fileName : String)
    (h0 : buffer[0]? = some 0x50) (h1 : buffer[1]? = some 0x4B) :
    (jsEndsWith fileName ".docx" = true →
      validateFileType buffer fileName =
        { isValid := true, fileType := .docx,
          mimeType := "application/vnd.openxmlformats-officedocument.wordprocessingml.document" }) ∧
    (jsEndsWith fileName ".docx" = false →
      ¬(jsEndsWith (jsToLower fileName) ".txt" = true ∧ isValidUtf8 buffer = true) →
      validateFileType buffer fileName =
        { isValid := false, fileType := .unknown,
          mimeType := "application/octet-stream" }) := by
  constructor
  · intro hd
    unfold validateFileType
    simp [h0, h1, hd]
  · intro hd htxt
    unfold validateFileType
    simp [h0, h1, hd, htxt]

theorem zip_magic_docx_iff_extension_witness :
    (validateFileType [0x50, 0x4B] "contract.docx" =
      { isValid := true, fileType := .docx,
        mimeType := "application/vnd.openxmlformats-officedocument.wordprocessingml.document" }) ∧
    (validateFileType [0x50, 0x4B] "archive.zip" =
      { isValid := false, fileType := .unknown,
        mimeType := "application/octet-stream" }) :=
  ⟨(zip_magic_docx_iff_extension [0x50, 0x4B] "contract.docx" rfl rfl).1 (by decide),
   (zip_magic_docx_iff_extension [0x50, 0x4B] "archive.zip" rfl rfl).2 (by decide) (by decide)⟩

/-- **C4.** For buffers not matching the PDF or DOCX rules whose filename ends
in `.txt`: a strict-UTF-8-valid buffer is classified
`{isValid: true, fileType: 'txt', mimeType: 'text/plain'}`; if the strict
decode would throw, the result is `{isValid: false, fileType: 'unknown'}`. -/
theorem txt_extension_strict_utf8_rule (buffer : List Nat) (fileName : String)
    (hpdf : ¬(buffer[0]? = some 0x25 ∧ buffer[1]? = some 0x50 ∧
              buffer[2]? = some 0x44 ∧ buffer[3]? = some 0x46))
    (hdocx : ¬(buffer[0]? = some 0x50 ∧ buffer[1]? = some 0x4B ∧
               jsEndsWith fileName ".docx" = true))
    (htxt : jsEndsWith fileName ".txt" = true) :
    (isValidUtf8 buffer = true →
      validateFileType buffer fileName =
        { isValid := true, fileType := .txt, mimeType := "text/plain" }) ∧
    (isValidUtf8 buffer = false →
      validateFileType buffer fileName =
        { isValid := false, fileType := .unknown,
          mimeType := "application/octet-stream" }) := by
  have hlow := jsEndsWith_toLower_txt htxt
  constructor
  · intro hv
    unfold validateFileType
    simp [hpdf, hdocx, hlow, hv]
  · intro hv
    unfold validateFileType
    simp [hpdf, hdocx, hv]

theorem txt_extension_strict_utf8_rule_witness :
    (validateFileType [104, 105] "notes.txt" =
      { isValid := true, fileType := .txt, mimeType := "text/plain" }) ∧
    (validateFileType [0xFF] "bad.txt" =
      { isValid := false, fileType := .unknown,
        mimeType := "application/octet-stream" }) :=
  ⟨(txt_extension_strict_utf8_rule [104, 105] "notes.txt" (by decide) (by decide)
      (by decide)).1 (by decide),
   (txt_extension_strict_utf8_rule [0xFF] "bad.txt" (by decide) (by decide)
      (by decide)).2 (by decide)⟩

/-- **C9.** `analyzeDocumentStructure` is deterministic: two calls on identical
inputs yield identical `document_type`, `key_topics` and sections.  In this
embedding the function is pure by construction — exactly the point of the
claim: the source function reads no mutable state (its regex objects are
created per call, and `String.match` resets scanning state), so its result is
a function of `(text, fileName)` alone. -/
theorem analyzeDocumentStructure_deterministic (text fileName : String) :
    (analyzeDocumentStructure text fileName).document_type =
        (analyzeDocumentStructure text fileName).document_type ∧
    (analyzeDocumentStructure text fileName).key_topics =
        (analyzeDocumentStructure text fileName).key_topics ∧
    (analyzeDocumentStructure text fileName).sections =
        (analyzeDocumentStructure text fileName).sections :=
  ⟨rfl, rfl, rfl⟩

/-- **C5 counterexample.**  With a declared page count of zero (and non-empty
text), the primary path of `extractTextFromPdf` does not treat the document as
a single page: the slicing loop runs zero times and the result carries an
empty `pages` array. -/
theorem zero_pagecount_not_single_page :
    (extractTextFromPdf (.ok { text := "Budget overview", numpages := 0, info := none })
        (.error "unused") [] "budget.pdf").toOption.map
      (fun r => r.pages.length) ≠ some 1 := by decide

/-- **C5 (amended).**  When the declared page count is zero or the returned
text is empty, the primary path completes without any exception (JS division
by zero yields `Infinity`/`NaN`, never a throw, and the loop body never runs),
and the result's `pages` array is empty — the document is *not* treated as a
single page; the full text is still returned unchanged. -/
theorem zero_pagecount_or_empty_text_yields_no_pages (d : PdfParseData)
    (pl : Except String PdfLibDoc) (buf : List Nat) (fileName : String)
    (h : d.numpages = 0 ∨ d.text = "") :
    extractTextFromPdf (.ok d) pl buf fileName =
      .ok { text := d.text, pages := [], metadata := metaFromParse d buf.length,
            extraction_method := .pdfParse } := by
  simp [extractTextFromPdf, slicePages_eq_nil h]

theorem zero_pagecount_or_empty_text_yields_no_pages_witness :
    extractTextFromPdf
        (.ok { text := "Budget overview", numpages := 0, info := none })
        (.error "unused") [] "budget.pdf" =
      .ok { text := "Budget overview", pages := [],
            metadata := metaFromParse { text := "Budget overview", numpages := 0, info := none } 0,
            extraction_method := .pdfParse } :=
  zero_pagecount_or_empty_text_yields_no_pages _ _ [] "budget.pdf" (Or.inl rfl)

/-- **C6.** Whenever the primary `pdf-parse` rung throws and a result is
returned, its `extraction_method` is the tag of the rung that produced the
text — always `'fallback'` (the tag `extractWithFallbackMethod` reports) — and
in particular not the primary tag `'pdf-parse'`. -/
theorem fallback_method_after_primary_failure (e : String)
    (pl : Except String PdfLibDoc) (buf : List Nat) (fileName : String)
    (r : PdfExtractionResult)
    (h : extractTextFromPdf (.error e) pl buf fileName = .ok r) :
    r.extraction_method = PdfMethod.fallback ∧
      r.extraction_method ≠ PdfMethod.pdfParse := by
  have hm := method_after_primary_error h
  exact ⟨hm, by rw [hm]; simp⟩

theorem fallback_method_after_primary_failure_witness :
    ({ text := "", pages := [⟨1, "", 1⟩],
       metadata := { title := none, author := none, subject := none, creator := none,
                     creation_date := none, modification_date := none,
                     page_count := 2, file_size := 0 },
       extraction_method := .fallback } : PdfExtractionResult).extraction_method
        = PdfMethod.fallback ∧
    ({ text := "", pages := [⟨1, "", 1⟩],
       metadata := { title := none, author := none, subject := none, creator := none,
                     creation_date := none, modification_date := none,
                     page_count := 2, file_size := 0 },
       extraction_method := .fallback } : PdfExtractionResult).extraction_method
        ≠ PdfMethod.pdfParse :=
  fallback_method_after_primary_failure "pdf-parse unavailable"
    (.ok { pageCount := 2, title := none, author := none, subject := none,
           creator := none, creationDateIso := none, modificationDateIso := none })
    [] "notes.pdf" _ (by rfl)

/-- **C7.** When the primary parse fails but `PDFDocument.load` succeeds, the
returned metadata is taken field-by-field from the loaded document's info
dictionary — page count, title, author, subject, creator and both dates —
irrespective of the buffer whose text had to be recovered by the pattern-scan
fallback (the result's method tag is the fallback tag, yet the metadata can
carry a correct non-zero page count and title/author). -/
theorem metadata_from_info_dict_after_primary_failure (e : String) (doc : PdfLibDoc)
    (buf : List Nat) (fileName : String) :
    ∃ r, extractTextFromPdf (.error e) (.ok doc) buf fileName = .ok r ∧
      r.extraction_method = PdfMethod.fallback ∧
      r.metadata.page_count = doc.pageCount ∧
      r.metadata.title = orUndef doc.title ∧
      r.metadata.author = orUndef doc.author ∧
      r.metadata.subject = orUndef doc.subject ∧
      r.metadata.creator = orUndef doc.creator ∧
      r.metadata.creation_date = orUndef doc.creationDateIso ∧
      r.metadata.modification_date = orUndef doc.modificationDateIso :=
  ⟨_, rfl, rfl, rfl, rfl, rfl, rfl, rfl, rfl, rfl⟩

/-- **C10.** `extractTextFromPdf` never returns a result tagged `'pdf-lib'`,
although its declared result type (`PdfMethod`) includes that tag: every
returned result is tagged `'pdf-parse'` (primary success) or `'fallback'`
(`extractWithFallbackMethod` reports `'fallback'` on its only reachable path,
and `extractWithPdfLib` propagates that tag). -/
theorem extraction_method_never_pdflib (pdfParse : Except String PdfParseData)
    (pl : Except String PdfLibDoc) (buf : List Nat) (fileName : String)
    (r : PdfExtractionResult)
    (h : extractTextFromPdf pdfParse pl buf fileName = .ok r) :
    r.extraction_method ≠ PdfMethod.pdfLib ∧
      (r.extraction_method = PdfMethod.pdfParse ∨
        r.extraction_method = PdfMethod.fallback) := by
  cases pdfParse with
  | ok d =>
    have hm := method_after_primary_ok h
    exact ⟨by rw [hm]; simp, Or.inl hm⟩
  | error e =>
    have hm := method_after_primary_error h
    exact ⟨by rw [hm]; simp, Or.inr hm⟩

theorem extraction_method_never_pdflib_witness :
    ({ text := "hello world", pages := [⟨1, "hello world", 2⟩],
       metadata := { title := none, author := none, subject := none, creator := none,
                     creation_date := none, modification_date := none,
                     page_count := 1, file_size := 0 },
       extraction_method := .pdfParse } : PdfExtractionResult).extraction_method
        ≠ PdfMethod.pdfLib ∧
    (({ text := "hello world", pages := [⟨1, "hello world", 2⟩],
        metadata := { title := none, author := none, subject := none, creator := none,
                      creation_date := none, modification_date := none,
                      page_count := 1, file_size := 0 },
        extraction_method := .pdfParse } : PdfExtractionResult).extraction_method
          = PdfMethod.pdfParse ∨
      ({ text := "hello world", pages := [⟨1, "hello world", 2⟩],
         metadata := { title := none, author := none, subject := none, creator := none,
                       creation_date := none, modification_date := none,
                       page_count := 1, file_size := 0 },
         extraction_method := .pdfParse } : PdfExtractionResult).extraction_method
          = PdfMethod.fallback) :=
  extraction_method_never_pdflib (.ok { text := "hello world", numpages := 1, info := none })
    (.error "unused") [] "a.pdf" _ (by rfl)

/-- **C1 counterexample.** A buffer that classifies as a valid PDF (it begins
with `%PDF`) on which the primary parser throws and the object-model load
succeeds, but whose bytes contain none of the text-operator patterns: the
returned result's text trims to the empty string — the filename-placeholder
synthesis is *not* reached (it lives in an unreachable catch arm), so the
non-empty-text postcondition fails for `extractTextFromPdf`. -/
theorem pdf_text_can_be_empty :
    (extractTextFromPdf (.error "pdf-parse failed")
        (.ok { pageCount := 3, title := none, author := none, subject := none,
               creator := none, creationDateIso := none, modificationDateIso := none })
        ("%PDF-1.4".data.map Char.toNat) "report.pdf").toOption.map
      (fun r => jsTrimStr r.text) = some "" := by rfl

/-- **C1 (amended).** The non-empty-text postcondition holds for the DOCX
extractor: for every oracle outcome, buffer and filename,
`extractTextFromDocx` returns text that is non-empty after trimming and never
throws (it is total).  `extractTextFromPdf` is exception-free whenever the
primary parser succeeds or the object-model load succeeds, but its returned
text may be empty after trimming (pattern-scan exhaustion yields empty text;
the filename placeholder sits in an unreachable catch arm), and it throws when
both library rungs fail. -/
theorem docx_nonempty_and_pdf_totality :
    (∀ (jszipAvailable : Bool) (zipLoad : Except String (Option String))
        (currentDate : String) (buf : List Nat) (fileName : String),
        jsTrimStr (extractTextFromDocx jszipAvailable zipLoad currentDate buf fileName).text
          ≠ "") ∧
    (∀ (d : PdfParseData) (pl : Except String PdfLibDoc) (buf : List Nat)
        (fileName : String),
        ∃ r, extractTextFromPdf (.ok d) pl buf fileName = .ok r) ∧
    (∀ (pdfParse : Except String PdfParseData) (doc : PdfLibDoc) (buf : List Nat)
        (fileName : String),
        ∃ r, extractTextFromPdf pdfParse (.ok doc) buf fileName = .ok r) := by
  refine ⟨extractTextFromDocx_trim_ne, ?_, ?_⟩
  · intro d pl buf fileName
    exact ⟨_, rfl⟩
  · intro pdfParse doc buf fileName
    cases pdfParse with
    | ok d => exact ⟨_, rfl⟩
    | error e => exact ⟨_, rfl⟩

theorem exists_not_ws_of_trim_ne {s : String} (h : jsTrimStr s ≠ "") :
    ∃ c ∈ s.data, jsIsWs c = false := by
  by_contra hall
  push_neg at hall
  exact h (jsTrimStr_eq_empty_iff.mpr fun c hc => by
    have := hall c hc
    cases hws : jsIsWs c
    · exact absurd hws this
    · rfl)

theorem contentsConcat_push (a : List DocSection) (s : DocSection) :
    contentsConcat (a ++ [s]) = contentsConcat a ++ s.content := by
  simp [contentsConcat, concatAll_append, concatAll, String.append_empty]

/-- One loop iteration: the invariant is preserved and the "closed contents
plus pending content" concatenation grows by exactly the line's `keptLine`
contribution. -/
theorem sectionStep_concat (st : SecState) (line : String) (h : SecInv st) :
    SecInv (sectionStep st line) ∧
      contentsConcat (sectionStep st line).acc ++ (sectionStep st line).curContent =
        (contentsConcat st.acc ++ st.curContent) ++ (keptLine line).getD "" := by
  by_cases hb : jsTrimStr line = ""
  · have hs : sectionStep st line = st := by simp [sectionStep, hb]
    have hk : keptLine line = none := by simp [keptLine, hb]
    rw [hs, hk]
    exact ⟨h, by simp [String.append_empty]⟩
  · by_cases hh : isHeadingLine (jsTrimStr line).data
    · have hk : keptLine line = none := by simp [keptLine, hb, hh]
      have hs : sectionStep st line =
          { curTitle := sectionTitle (jsTrimStr line), curContent := "",
            curType := determineSectionType (jsTrimStr line),
            acc := if jsTrimStr st.curContent ≠ "" then st.acc ++ [closeSection st]
                   else st.acc } := by
        simp [sectionStep, hb, hh]
      rw [hs, hk]
      by_cases hcur : jsTrimStr st.curContent ≠ ""
      · constructor
        · refine ⟨Or.inl rfl, ?_⟩
          intro sec hsec
          rw [if_pos hcur] at hsec
          rcases List.mem_append.mp hsec with hold | hnew
          · exact h.2 sec hold
          · have : sec = closeSection st := by simpa using hnew
            rw [this]
            show st.curContent ≠ ""
            intro h0
            rw [h0] at hcur
            exact hcur rfl
        · rw [if_pos hcur]
          simp [contentsConcat_push, closeSection, String.append_empty]
      · constructor
        · exact ⟨Or.inl rfl, by rw [if_neg hcur]; exact h.2⟩
        · rw [if_neg hcur]
          have hcur' : st.curContent = "" := by
            rcases h.1 with h1 | h1
            · exact h1
            · exact absurd h1 hcur
          simp [hcur', String.append_empty]
    · have hk : keptLine line = some (line ++ "\n") := by simp [keptLine, hb, hh]
      have hs : sectionStep st line =
          { st with curContent := st.curContent ++ line ++ "\n" } := by
        simp [sectionStep, hb, hh]
      rw [hs, hk]
      constructor
      · refine ⟨Or.inr ?_, h.2⟩
        obtain ⟨c, hc, hcw⟩ := exists_not_ws_of_trim_ne hb
        refine jsTrimStr_ne_empty_of_mem (c := c) ?_ hcw
        show c ∈ (st.curContent ++ line ++ "\n").data
        rw [String.data_append, String.data_append]
        exact List.mem_append_left _ (List.mem_append_right _ hc)
      · simp [String.append_assoc]

/-- Folding the loop over the lines accumulates exactly the `keptLine`
contributions. -/
theorem foldl_sectionStep_concat (lines : List String) (st : SecState) (h : SecInv st) :
    SecInv (lines.foldl sectionStep st) ∧
      contentsConcat (lines.foldl sectionStep st).acc ++
          (lines.foldl sectionStep st).curContent =
        (contentsConcat st.acc ++ st.curContent) ++
          concatAll (lines.filterMap keptLine) := by
  induction lines generalizing st with
  | nil =>
    refine ⟨h, ?_⟩
    simp [concatAll, String.append_empty]
  | cons l rest ih =>
    obtain ⟨h1, heq1⟩ := sectionStep_concat st l h
    obtain ⟨h2, heq2⟩ := ih (sectionStep st l) h1
    refine ⟨h2, ?_⟩
    rw [List.foldl_cons]
    cases hk : keptLine l with
    | none =>
      rw [List.filterMap_cons_none hk]
      rw [heq2, heq1, hk]
      simp [String.append_empty]
    | some s =>
      rw [List.filterMap_cons_some hk]
      rw [heq2, heq1, hk]
      show ((contentsConcat st.acc ++ st.curContent) ++ Option.getD (some s) "") ++
          concatAll (rest.filterMap keptLine) = _
      simp [concatAll, String.append_assoc]

/-! ### The round-trip theorems (claim C8) -/

/-- **C8 counterexample.** For the input `"a\n\nb"` (no heading lines at all)
the concatenated section contents are `"a\nb\n"`: the blank middle line is
dropped by the loop's `continue` and each kept line gains a trailing newline,
so the result differs from the original text even after removing heading
lines — the round-trip claim fails. -/
theorem section_roundtrip_fails :
    contentsConcat (identifyDocumentSections "a\n\nb") ≠
        textWithoutHeadingLines "a\n\nb" ∧
      (identifyDocumentSections "a\n\nb").map (fun s => s.content) = ["a\nb\n"] ∧
      textWithoutHeadingLines "a\n\nb" = "a\n\nb" :=
  ⟨by decide, by decide, by decide⟩

/-- Assembling the final section list from any closed-section list whose
contents concatenate to the kept text: an empty list falls back to one section
holding the whole text. -/
theorem sections_assemble_core (text : String) (S : List DocSection)
    (hc1 : contentsConcat S = keptConcat text)
    (hc2 : ∀ s ∈ S, s.content ≠ "") :
    contentsConcat
      (if 0 < S.length then S
       else [{ title := "전체 문서", content := text, section_type := .body,
               word_count := (jsSplitWs text).length }]) =
      if keptConcat text = "" then text else keptConcat text := by
  cases S with
  | nil =>
    have hkept : keptConcat text = "" := by rw [← hc1]; rfl
    have hlen : ¬0 < ([] : List DocSection).length := by simp
    rw [if_neg hlen, hkept, if_pos rfl]
    simp [contentsConcat, concatAll, String.append_empty]
  | cons s ss =>
    have hne : keptConcat text ≠ "" := by
      rw [← hc1]
      intro h0
      have hall := concatAll_eq_empty_iff.mp (by simpa [contentsConcat] using h0)
      exact hc2 s (by simp) (hall s.content (by simp))
    rw [if_pos (by simp), hc1, if_neg hne]

/-- Assembling the final section list: with the loop invariant and the
accumulated-concatenation equation, the concatenated contents equal the kept
concatenation, except that an empty section list falls back to one section
holding the whole text. -/
theorem sections_assemble (text : String) (fin : SecState)
    (hinv : SecInv fin)
    (hK : contentsConcat fin.acc ++ fin.curContent = keptConcat text) :
    contentsConcat
      (if 0 < (if jsTrimStr fin.curContent ≠ "" then fin.acc ++ [closeSection fin]
               else fin.acc).length
       then (if jsTrimStr fin.curContent ≠ "" then fin.acc ++ [closeSection fin]
             else fin.acc)
       else [{ title := "전체 문서", content := text, section_type := .body,
               word_count := (jsSplitWs text).length }]) =
      if keptConcat text = "" then text else keptConcat text := by
  by_cases hcur : jsTrimStr fin.curContent ≠ ""
  · rw [if_pos hcur]
    apply sections_assemble_core
    · rw [contentsConcat_push]
      exact hK
    · intro s hs
      rcases List.mem_append.mp hs with hold | hnew
      · exact hinv.2 s hold
      · have heq : s = closeSection fin := by simpa using hnew
        rw [heq]
        show fin.curContent ≠ ""
        intro h0
        rw [h0] at hcur
        exact hcur rfl
  · rw [if_neg hcur]
    have hcur0 : fin.curContent = "" := by
      rcases hinv.1 with h1 | h1
      · exact h1
      · exact absurd h1 hcur
    apply sections_assemble_core
    · rw [← hK, hcur0, String.append_empty]
    · exact hinv.2

/-- **C8 (amended).** Concatenating the `content` fields of
`identifyDocumentSections text` in order yields the concatenation of
`line + '\n'` over exactly those input lines that are neither whitespace-only
nor heading lines (`keptConcat`); when every line is blank or a heading — so
no section accumulates content — the function instead returns a single section
whose content is the entire original text.  The round-trip thus holds only
modulo heading-line removal, blank-line removal, and newline
normalisation. -/
theorem sections_content_concat (text : String) :
    contentsConcat (identifyDocumentSections text) =
      if keptConcat text = "" then text else keptConcat text := by
  have h0 : SecInv ⟨"문서 시작", "", SectionType.body, []⟩ := ⟨Or.inl rfl, by simp⟩
  obtain ⟨hinv, heq⟩ := foldl_sectionStep_concat (jsSplitChar '\n' text) _ h0
  have hK : contentsConcat
        ((jsSplitChar '\n' text).foldl sectionStep
          ⟨"문서 시작", "", SectionType.body, []⟩).acc ++
      ((jsSplitChar '\n' text).foldl sectionStep
          ⟨"문서 시작", "", SectionType.body, []⟩).curContent =
      keptConcat text := by
    rw [heq]
    simp [contentsConcat, concatAll, String.empty_append, keptConcat]
  exact sections_assemble text _ hinv hK

end RfpSim